import Mathlib

/-!
Verification development for the WanderWallet destination-image pipeline.

The definitions below are a shallow embedding of the image-resolution code:
`fetch_unsplash_images` and `get_fallback_images` from `app.py`, and
`select_best_destination_images` from `utils/ai_engine.py`.  External effects
(the Unsplash HTTP search, the generative ranking service, the sqlite cache
write transaction) are modelled by an explicit environment: the HTTP call per
attempt either fails (transport error or a non-200 status) or yields a list of
result photos; the ranking service is modelled by the outcome of each model
variant; the cache is a list of rows and a failed replacement transaction
leaves it unchanged (sqlite rollback semantics).  Python integers are `Int`
where a negative value is observable (fallback count, ranked indices) and `Nat`
elsewhere; a Python exception escaping the function is `Except.error`.
The `urllib` helpers (`urlparse`, `parse_qsl`, `urlencode`, `urlunparse`) are
modelled character-by-character after CPython for the standard
`scheme://netloc/path?query#fragment` shape; percent-encoding is modelled as
the identity transport (parameters are compared at the decoded level).
-/

namespace WanderWallet

/-- Does `hay` start with `needle` (over character lists). -/
def listStarts : List Char → List Char → Bool
  | [], _ => true
  | _ :: _, [] => false
  | a :: as, b :: bs => a = b && listStarts as bs

/-- Python substring test `needle in hay` over character lists. -/
def listHasSub (needle : List Char) : List Char → Bool
  | [] => needle.isEmpty
  | b :: bs => listStarts needle (b :: bs) || listHasSub needle bs

/-- Python substring test `needle in hay` on strings. -/
def strContains (hay needle : String) : Bool :=
  listHasSub needle.data hay.data

/-- Python `str.lower()` (per-character lowering). -/
def strLower (s : String) : String := ⟨s.data.map Char.toLower⟩

/-- Helper for Python whitespace `str.split()`: `cur` is the reversed current token. -/
def pySplitChars : List Char → List Char → List String
  | cur, [] => if cur.isEmpty then [] else [⟨cur.reverse⟩]
  | cur, c :: cs =>
    if c.isWhitespace then
      if cur.isEmpty then pySplitChars [] cs else ⟨cur.reverse⟩ :: pySplitChars [] cs
    else pySplitChars (c :: cur) cs

/-- Python `str.split()` with no argument: split on whitespace, dropping empties. -/
def pySplit (s : String) : List String := pySplitChars [] s.data

/-- Python `" ".join(words)`. -/
def joinSpace : List String → String
  | [] => ""
  | [w] => w
  | w :: ws => w ++ " " ++ joinSpace ws

/-- Python slice `l[:c]` for an arbitrary integer bound `c`. -/
def pyTake (c : Int) (l : List α) : List α :=
  if 0 ≤ c then l.take c.toNat else l.take (l.length - (-c).toNat)

/-- Python list subscription `l[i]`, with negative indices counting from the
end; `none` is an `IndexError`. -/
def pyGet (l : List α) (i : Int) : Option α :=
  if 0 ≤ i then l[i.toNat]?
  else if 0 ≤ i + l.length then l[(i + l.length).toNat]? else none

/-- Split a character list at the first occurrence of `c`: the part before,
and `some` rest after when `c` occurs. -/
def splitAtFirstChar (c : Char) : List Char → List Char × Option (List Char)
  | [] => ([], none)
  | x :: xs =>
    if x = c then ([], some xs)
    else
      let r := splitAtFirstChar c xs
      (x :: r.1, r.2)

/-- Split a character list at the last occurrence of `c` when it occurs. -/
def splitAtLastChar (c : Char) (l : List Char) : Option (List Char × List Char) :=
  let r := splitAtFirstChar c l.reverse
  match r.2 with
  | none => none
  | some before => some (before.reverse, r.1.reverse)

/-- Characters CPython accepts inside a URL scheme. -/
def schemeChar (c : Char) : Bool := c.isAlphanum || c = '+' || c = '-' || c = '.'

/-- CPython test that the text before the first colon is a valid scheme. -/
def validSchemeCs : List Char → Bool
  | [] => false
  | c :: cs => c.isAlpha && decide (c.toNat < 128) && (c :: cs).all schemeChar

/-- Does the character list start with one slash. -/
def startsSlash : List Char → Bool
  | '/' :: _ => true
  | _ => false

/-- Does the character list start with two slashes. -/
def startsSlashSlash : List Char → Bool
  | '/' :: '/' :: _ => true
  | _ => false

/-- The result shape of `urllib.parse.urlparse`. -/
structure UrlParts where
  scheme : String
  netloc : String
  path : String
  params : String
  query : String
  fragment : String
deriving DecidableEq

/-- Schemes for which CPython `urlparse` splits `;params` off the path. -/
def usesParams : List String :=
  ["", "ftp", "hdl", "prospero", "http", "imap", "https", "shttp", "rtsp",
   "rtspu", "sip", "sips", "mms", "sftp", "tel"]

/-- CPython `_splitparams`: split the part after the first semicolon that
follows the last slash off as params. -/
def pySplitParams (l : List Char) : List Char × List Char :=
  if l.contains ';' then
    if l.contains '/' then
      match splitAtLastChar '/' l with
      | some (pre, post) =>
        match splitAtFirstChar ';' post with
        | (seg, some ps) => (pre ++ '/' :: seg, ps)
        | (_, none) => (l, [])
      | none => (l, [])
    else
      match splitAtFirstChar ';' l with
      | (seg, some ps) => (seg, ps)
      | (_, none) => (l, [])
  else (l, [])

/-- The input up to the first hash mark and then the first question mark:
the part of the URL before query and fragment. -/
def urlparseBeforeQ (u : String) : List Char :=
  (splitAtFirstChar '?' (splitAtFirstChar '#' u.data).1).1

/-- The query component: after the first question mark, fragment removed. -/
def urlparseQueryCs (u : String) : List Char :=
  ((splitAtFirstChar '?' (splitAtFirstChar '#' u.data).1).2).getD []

/-- The fragment component: after the first hash mark. -/
def urlparseFragmentCs (u : String) : List Char :=
  ((splitAtFirstChar '#' u.data).2).getD []

/-- The validated lower-cased scheme and the remainder after its colon; an
absent or invalid scheme leaves the whole pre-query part. -/
def urlparseSchemeRest (u : String) : List Char × List Char :=
  match (splitAtFirstChar ':' (urlparseBeforeQ u)).2 with
  | some r =>
    if validSchemeCs (splitAtFirstChar ':' (urlparseBeforeQ u)).1 then
      ((splitAtFirstChar ':' (urlparseBeforeQ u)).1.map Char.toLower, r)
    else ([], urlparseBeforeQ u)
  | none => ([], urlparseBeforeQ u)

/-- The netloc between a leading double slash and the next slash, and the
remaining path. -/
def urlparseNetRest (u : String) : List Char × List Char :=
  match (urlparseSchemeRest u).2 with
  | '/' :: '/' :: r => (r.takeWhile (fun c => c ≠ '/'), r.dropWhile (fun c => c ≠ '/'))
  | _ => ([], (urlparseSchemeRest u).2)

/-- The path with `;params` split off for the schemes that use params. -/
def urlparsePathParams (u : String) : List Char × List Char :=
  if usesParams.contains ⟨(urlparseSchemeRest u).1⟩ then pySplitParams (urlparseNetRest u).2
  else ((urlparseNetRest u).2, [])

/-- Modelled from CPython `urllib.parse.urlparse`: fragment after the first
hash mark, query after the first question mark, a validated lower-cased
scheme before the first colon, netloc between a double slash and the next
slash, and `;params` split from the path for the schemes that use them. -/
def urlparse (u : String) : UrlParts :=
  ⟨⟨(urlparseSchemeRest u).1⟩, ⟨(urlparseNetRest u).1⟩, ⟨(urlparsePathParams u).1⟩,
   ⟨(urlparsePathParams u).2⟩, ⟨urlparseQueryCs u⟩, ⟨urlparseFragmentCs u⟩⟩

/-- CPython `urlunparse`, path step: `;params` back onto the path. -/
def urlunparsePathCs (p : UrlParts) : List Char :=
  if p.params.data.isEmpty then p.path.data else p.path.data ++ ';' :: p.params.data

/-- CPython `urlunparse`, netloc step. -/
def urlunparseNetCs (p : UrlParts) : List Char :=
  if !p.netloc.data.isEmpty || startsSlashSlash (urlunparsePathCs p) then
    '/' :: '/' :: (p.netloc.data ++
      (if !(urlunparsePathCs p).isEmpty && !startsSlash (urlunparsePathCs p) then
        '/' :: urlunparsePathCs p
       else urlunparsePathCs p))
  else urlunparsePathCs p

/-- CPython `urlunparse`, everything before the query mark. -/
def urlunparsePrefixCs (p : UrlParts) : List Char :=
  if p.scheme.data.isEmpty then urlunparseNetCs p
  else p.scheme.data ++ ':' :: urlunparseNetCs p

/-- CPython `urlunparse` on character lists. -/
def urlunparseCs (p : UrlParts) : List Char :=
  if p.fragment.data.isEmpty then
    (if p.query.data.isEmpty then urlunparsePrefixCs p
     else urlunparsePrefixCs p ++ '?' :: p.query.data)
  else
    (if p.query.data.isEmpty then urlunparsePrefixCs p
     else urlunparsePrefixCs p ++ '?' :: p.query.data) ++ '#' :: p.fragment.data

/-- CPython `urllib.parse.urlunparse`. -/
def urlunparse (p : UrlParts) : String := ⟨urlunparseCs p⟩

/-- Split a character list at every occurrence of `c`. -/
def splitAllChar (c : Char) : List Char → List (List Char)
  | [] => [[]]
  | x :: xs =>
    let r := splitAllChar c xs
    if x = c then [] :: r
    else
      match r with
      | [] => [[x]]
      | h :: t => (x :: h) :: t

/-- Field list of CPython `parse_qsl(qs, keep_blank_values=True)`: split on
ampersands, drop empty fields, split each field at its first equals sign, and
keep a field with no equals sign as a blank-valued pair. -/
def qslPairsCs (l : List Char) : List (List Char × List Char) :=
  (splitAllChar '&' l).filterMap fun field =>
    if field.isEmpty then none
    else
      match splitAtFirstChar '=' field with
      | (name, some value) => some (name, value)
      | (name, none) => some (name, [])

/-- CPython `parse_qsl(qs, keep_blank_values=True)` with percent-encoding
modelled as the identity transport. -/
def parse_qsl (q : String) : List (String × String) :=
  (qslPairsCs q.data).map fun p => (⟨p.1⟩, ⟨p.2⟩)

/-- CPython `urlencode` over an ordered pair list, on character lists. -/
def urlencodeCs : List (List Char × List Char) → List Char
  | [] => []
  | [p] => p.1 ++ '=' :: p.2
  | p :: rest => p.1 ++ '=' :: p.2 ++ '&' :: urlencodeCs rest

/-- CPython `urlencode` over an ordered pair list, with percent-encoding
modelled as the identity transport. -/
def urlencode (ps : List (String × String)) : String :=
  ⟨urlencodeCs (ps.map fun p => (p.1.data, p.2.data))⟩

/-- Python dict key test over an ordered association list. -/
def dictContains (d : List (String × String)) (k : String) : Bool :=
  d.any fun p => p.1 = k

/-- Python dict assignment `d[k] = v`: replace in place when the key exists,
append otherwise. -/
def dictInsert (d : List (String × String)) (k v : String) : List (String × String) :=
  if dictContains d k then d.map (fun p => if p.1 = k then (k, v) else p) else d ++ [(k, v)]

/-- Python dict comprehension over a pair list: later duplicate keys overwrite
earlier values, keeping the first-insertion position. -/
def dictOfPairs (ps : List (String × String)) : List (String × String) :=
  ps.foldl (fun d p => dictInsert d p.1 p.2) []

/-- The `if k not in d: d[k] = v` step of the URL normalisation. -/
def setDefaultParam (d : List (String × String)) (k v : String) : List (String × String) :=
  if dictContains d k then d else d ++ [(k, v)]

/-- The URL normalisation of `fetch_unsplash_images` (app.py lines 1134 to
1153): parse the image URL, collapse its query into a dict, inject
`auto=format`, `q=80` and `w=1200` only when the key is absent, and rebuild
the URL. -/
def optimizeUrl (base : String) : String :=
  urlunparse { urlparse base with
    query := urlencode (setDefaultParam (setDefaultParam (setDefaultParam
      (dictOfPairs (parse_qsl (urlparse base).query)) "auto" "format") "q" "80") "w" "1200") }

/-- The three default parameters injected by the URL normalisation. -/
def defaultParams : List (String × String) :=
  [("auto", "format"), ("q", "80"), ("w", "1200")]

/-- A query-string pair whose characters survive the encode-parse round trip
in our percent-encoding-free model: no ampersand or equals sign in the key,
no ampersand in the value, and no hash mark in either. -/
def QslPairOk (kv : String × String) : Prop :=
  ('&' ∉ kv.1.data ∧ '=' ∉ kv.1.data ∧ '#' ∉ kv.1.data) ∧
    ('&' ∉ kv.2.data ∧ '#' ∉ kv.2.data)

instance (kv : String × String) : Decidable (QslPairOk kv) := by
  unfold QslPairOk
  infer_instance

/-- A raw Unsplash search result, as consumed by the pipeline. -/
structure Photo where
  id : String
  regularUrl : String
  userName : String
  userLinksHtml : String
  tags : List String
  altDescription : Option String
  description : Option String
deriving DecidableEq

/-- The pipeline output unit: a normalised URL with attribution. -/
structure ResolvedImage where
  url : String
  photographer : String
  photographer_url : String
deriving DecidableEq

/-- One row of the `image_cache` table. -/
structure CacheRow where
  query : String
  image_index : Nat
  image_url : String
  photographer : String
  photographer_url : String
deriving DecidableEq

/-- Ascending stable insertion by `image_index`, modelling `ORDER BY image_index`. -/
def insertRowAsc (r : CacheRow) : List CacheRow → List CacheRow
  | [] => [r]
  | s :: ss => if s.image_index ≤ r.image_index then s :: insertRowAsc r ss else r :: s :: ss

/-- Sort cache rows ascending by `image_index`. -/
def sortRowsAsc (l : List CacheRow) : List CacheRow := l.foldr insertRowAsc []

/-- The cache lookup `SELECT * FROM image_cache WHERE query = ? ORDER BY
image_index LIMIT ?`. -/
def lookupRows (db : List CacheRow) (q : String) (count : Nat) : List CacheRow :=
  (sortRowsAsc (db.filter fun r => r.query = q)).take count

/-- Convert a cached row to the response shape. -/
def cachedToImage (r : CacheRow) : ResolvedImage :=
  ⟨r.image_url, r.photographer, r.photographer_url⟩

/-- The six themed keyword pools of `get_fallback_images`, in declaration order. -/
def destinationTypes : List (String × List String) :=
  [("nature", ["mountain", "hill", "peak", "summit", "valley", "meadow", "forest", "woods",
      "jungle", "trail", "hike", "trekking", "nature", "wildlife", "national park", "reserve"]),
   ("water", ["beach", "ocean", "sea", "bay", "gulf", "lake", "pond", "river", "stream",
      "waterfall", "falls", "coast", "shore", "island", "archipelago", "marina", "harbor"]),
   ("urban", ["city", "town", "skyline", "downtown", "metropolitan", "building", "architecture",
      "skyscraper", "tower", "plaza", "square", "street", "avenue", "boulevard", "urban"]),
   ("heritage", ["temple", "church", "mosque", "monastery", "shrine", "cathedral", "palace",
      "castle", "fort", "fortress", "monument", "memorial", "ruins", "heritage", "historical",
      "ancient", "archaeological", "unesco"]),
   ("desert", ["desert", "dune", "sand", "arid", "oasis", "sahara", "canyon", "badlands"]),
   ("scenic", ["landscape", "scenic", "panorama", "view", "vista", "lookout", "viewpoint",
      "picturesque", "countryside", "rural"])]

/-- The static fallback URL pools of `get_fallback_images`, in declaration order. -/
def allFallbackUrls : List (String × List String) :=
  [("nature",
    ["https://images.unsplash.com/photo-1506905925346-21bda4d32df4?auto=format&q=80&w=1200",
     "https://images.unsplash.com/photo-1511593358241-7eea1f3c84e5?auto=format&q=80&w=1200",
     "https://images.unsplash.com/photo-1464822759023-fed622ff2c3b?auto=format&q=80&w=1200",
     "https://images.unsplash.com/photo-1501785888041-af3ef285b470?auto=format&q=80&w=1200"]),
   ("water",
    ["https://images.unsplash.com/photo-1507525428034-b723cf961d3e?auto=format&q=80&w=1200",
     "https://images.unsplash.com/photo-1505142468610-359e7d316be0?auto=format&q=80&w=1200",
     "https://images.unsplash.com/photo-1559827260-dc66d52bef19?auto=format&q=80&w=1200",
     "https://images.unsplash.com/photo-1544551763-46a013bb70d5?auto=format&q=80&w=1200"]),
   ("urban",
    ["https://images.unsplash.com/photo-1480714378408-67cf0d13bc1b?auto=format&q=80&w=1200",
     "https://images.unsplash.com/photo-1514565131-fce0801e5785?auto=format&q=80&w=1200",
     "https://images.unsplash.com/photo-1477959858617-67f85cf4f1df?auto=format&q=80&w=1200",
     "https://images.unsplash.com/photo-1449824913935-59a10b8d2000?auto=format&q=80&w=1200"]),
   ("heritage",
    ["https://images.unsplash.com/photo-1548013146-72479768bada?auto=format&q=80&w=1200",
     "https://images.unsplash.com/photo-1524492412937-b28074a5d7da?auto=format&q=80&w=1200",
     "https://images.unsplash.com/photo-1564507592333-c60657eea523?auto=format&q=80&w=1200",
     "https://images.unsplash.com/photo-1512428559087-560fa5ceab42?auto=format&q=80&w=1200"]),
   ("desert",
    ["https://images.unsplash.com/photo-1509316785289-025f5b846b35?auto=format&q=80&w=1200",
     "https://images.unsplash.com/photo-1473580044384-7ba9967e16a0?auto=format&q=80&w=1200",
     "https://images.unsplash.com/photo-1547036967-23d11aacaee0?auto=format&q=80&w=1200",
     "https://images.unsplash.com/photo-1682687220742-aba13b6e50ba?auto=format&q=80&w=1200"]),
   ("scenic",
    ["https://images.unsplash.com/photo-1469854523086-cc02fe5d8800?auto=format&q=80&w=1200",
     "https://images.unsplash.com/photo-1476514525535-07fb3b4ae5f1?auto=format&q=80&w=1200",
     "https://images.unsplash.com/photo-1530789253388-582c481c54b0?auto=format&q=80&w=1200",
     "https://images.unsplash.com/photo-1506905925346-21bda4d32df4?auto=format&q=80&w=1200"])]

/-- `all_fallback_urls.get(name, all_fallback_urls["scenic"])`. -/
def lookupPool (name : String) : List String :=
  (((allFallbackUrls.find? fun p => p.1 = name).map Prod.snd)).getD
    ["https://images.unsplash.com/photo-1469854523086-cc02fe5d8800?auto=format&q=80&w=1200",
     "https://images.unsplash.com/photo-1476514525535-07fb3b4ae5f1?auto=format&q=80&w=1200",
     "https://images.unsplash.com/photo-1530789253388-582c481c54b0?auto=format&q=80&w=1200",
     "https://images.unsplash.com/photo-1506905925346-21bda4d32df4?auto=format&q=80&w=1200"]

/-- `all_fallback_urls.get(name, [])`. -/
def lookupPoolOrEmpty (name : String) : List String :=
  (((allFallbackUrls.find? fun p => p.1 = name).map Prod.snd)).getD []

/-- The per-pool score: how many of the pool keywords occur as substrings of
the lower-cased query. -/
def fallbackScores (q : String) : List (String × Nat) :=
  destinationTypes.map fun p => (p.1, (p.2.filter fun k => strContains (strLower q) k).length)

/-- Stable insertion for a descending sort by score (Python `sorted` with
`reverse=True` is stable). -/
def insertDesc (x : String × Nat) : List (String × Nat) → List (String × Nat)
  | [] => [x]
  | y :: ys => if x.2 < y.2 then y :: insertDesc x ys else x :: y :: ys

/-- Stable descending sort by score. -/
def sortDescByScore (l : List (String × Nat)) : List (String × Nat) :=
  l.foldr insertDesc []

/-- `matched_type` of `get_fallback_images`: the top-scoring pool, or scenic
when the top score is zero. -/
def matchedTypeOf (q : String) : String :=
  match sortDescByScore (fallbackScores q) with
  | [] => "scenic"
  | (n, s) :: _ => if 0 < s then n else "scenic"

/-- First strict-improvement fold: the first highest-scoring entry. -/
def bestOf (b : String × Nat) : List (String × Nat) → String × Nat
  | [] => b
  | x :: l => bestOf (if b.2 < x.2 then x else b) l

/-- Spec-side pool score: how many of the pool keywords occur inside the
lower-cased query text. -/
def specPoolScore (q : String) (kws : List String) : Nat :=
  (kws.filter fun k => strContains (strLower q) k).length

/-- Spec-side selection rule, written to the letter of the specification:
score the six pools, pick the highest-scoring one with ties broken by
declaration order (nature first), and default to scenic when every pool
scores zero.  `matchedTypeOf` (the code, which sorts and takes the head of a
stable descending sort) is proved to refine this rule. -/
def specWinningPool (q : String) : String :=
  match destinationTypes.map (fun p => (p.1, specPoolScore q p.2)) with
  | [] => "scenic"
  | a :: rest => if 0 < (bestOf a rest).2 then (bestOf a rest).1 else "scenic"

/-- The fixed attribution of every fallback image. -/
def mkFallbackImage (u : String) : ResolvedImage :=
  ⟨u, "Unsplash", "https://unsplash.com"⟩

/-- Emit URLs from one pool, skipping used URLs, appending to `acc`; the flag
records the early `return` once `count` is reached. -/
def emitPool (count : Int) : List String → List ResolvedImage → List String →
    List ResolvedImage × List String × Bool
  | [], acc, used => (acc, used, false)
  | u :: us, acc, used =>
    if u ∈ used then emitPool count us acc used
    else
      let acc2 := acc ++ [mkFallbackImage u]
      let used2 := used ++ [u]
      if count ≤ (acc2.length : Int) then (acc2, used2, true)
      else emitPool count us acc2 used2

/-- The second loop of `get_fallback_images`: walk the remaining pools in
sorted order, skipping the matched pool. -/
def emitOtherPools (count : Int) (matched : String) :
    List (String × Nat) → List ResolvedImage → List String →
    List ResolvedImage × List String × Bool
  | [], acc, used => (acc, used, false)
  | t :: rest, acc, used =>
    if t.1 = matched then emitOtherPools count matched rest acc used
    else
      let r := emitPool count (lookupPoolOrEmpty t.1) acc used
      if r.2.2 then r else emitOtherPools count matched rest r.1 r.2.1

/-- The final literal of `get_fallback_images`. -/
def defaultScenicImage : ResolvedImage :=
  mkFallbackImage "https://images.unsplash.com/photo-1469854523086-cc02fe5d8800?auto=format&q=80&w=1200"

/-- The first emission pass of `get_fallback_images`: the winning pool. -/
def fallbackPhase1 (query : String) (count : Int) :
    List ResolvedImage × List String × Bool :=
  emitPool count (lookupPool (matchedTypeOf query)) [] []

/-- The second emission pass of `get_fallback_images`: the remaining pools in
descending score order. -/
def fallbackPhase2 (query : String) (count : Int) :
    List ResolvedImage × List String × Bool :=
  emitOtherPools count (matchedTypeOf query) (sortDescByScore (fallbackScores query))
    (fallbackPhase1 query count).1 (fallbackPhase1 query count).2.1

/-- `get_fallback_images(query, count)` (app.py lines 1200 to 1299): score the
six pools against the lower-cased query, emit the winning pool then the rest
in descending score order with URL dedup, and slice to `count` at the end. -/
def get_fallback_images (query : String) (count : Int) : List ResolvedImage :=
  if (fallbackPhase1 query count).2.2 then (fallbackPhase1 query count).1
  else if (fallbackPhase2 query count).2.2 then (fallbackPhase2 query count).1
  else if (fallbackPhase2 query count).1.isEmpty then [defaultScenicImage]
  else pyTake count (fallbackPhase2 query count).1

/-- Outcome of one generative model variant inside
`select_best_destination_images`: `fail` is an exception, an empty response
text or a JSON parse failure; `parsed` carries the decoded
`ranked_indices` list (JSON integers may be negative). -/
inductive VariantOutcome where
  | fail : VariantOutcome
  | parsed : List Int → VariantOutcome
deriving DecidableEq

/-- Environment of the relevance ranker: availability of the generative
client and the outcome of each model variant tried in order. -/
structure RankerEnv where
  aiAvailable : Bool
  outcomes : List VariantOutcome

/-- First variant outcome that is a syntactically valid non-empty ranking. -/
def firstValidRanking : List VariantOutcome → Option (List Int)
  | [] => none
  | .fail :: rest => firstValidRanking rest
  | .parsed r :: rest => if r.isEmpty then firstValidRanking rest else some r

/-- `select_best_destination_images(destination, image_candidates)`
(ai_engine.py lines 58 to 138): identity ordering when the client is
unavailable or the candidate list is empty; otherwise the first model variant
returning a valid non-empty ranking wins, and exhausting the variants falls
back to the identity ordering.  The function is total: no failure escapes. -/
def select_best_destination_images (env : RankerEnv) (destination : String)
    (candidates : List Photo) : List Int :=
  if !env.aiAvailable || candidates.isEmpty then
    (List.range candidates.length).map Int.ofNat
  else
    match firstValidRanking env.outcomes with
    | some r => r
    | none => (List.range candidates.length).map Int.ofNat

/-- Environment of one `fetch_unsplash_images` call: whether the Unsplash key
is configured, the outcome of the HTTP search per attempt index and query
variation (`none` is a transport error or a non-200 status), the ranker
environment, and whether the cache replacement transaction fails. -/
structure Env where
  hasKey : Bool
  http : Nat → String → Option (List Photo)
  ranker : RankerEnv
  replaceFails : Bool

/-- The people-focus content filter: any of the block-list keywords occurs in
the joined lower-cased tags, alt description and description. -/
def hasPeopleFocus (p : Photo) : Bool :=
  let text := joinSpace (p.tags.map strLower) ++ " " ++ strLower (p.altDescription.getD "")
    ++ " " ++ strLower (p.description.getD "")
  strContains text "selfie" || strContains text "portrait"

/-- The search-attempt loop of `fetch_unsplash_images` (app.py lines 1054 to
1108): one bounded HTTP call per variation, accumulating raw and filtered
results, stopping early once the filtered count reaches twice the target.
Returns raw results, filtered results and the number of HTTP calls issued. -/
def searchAttempts (http : Nat → String → Option (List Photo)) (variations : List String)
    (count : Nat) : Nat → Nat → List Photo → List Photo → List Photo × List Photo × Nat
  | _, 0, raw, filtered => (raw, filtered, 0)
  | attempt, fuel + 1, raw, filtered =>
    let q := variations.getD attempt (variations.getD 0 "")
    match http attempt q with
    | none =>
      let r := searchAttempts http variations count (attempt + 1) fuel raw filtered
      (r.1, r.2.1, r.2.2 + 1)
    | some photos =>
      let raw2 := raw ++ photos
      let filtered2 := filtered ++ photos.filter fun p => !hasPeopleFocus p
      if count * 2 ≤ filtered2.length then (raw2, filtered2, 1)
      else
        let r := searchAttempts http variations count (attempt + 1) fuel raw2 filtered2
        (r.1, r.2.1, r.2.2 + 1)

/-- The ranked-candidate accumulation loop of `fetch_unsplash_images` (app.py
lines 1123 to 1165): walk the ranked indices, skip an index at or above the
candidate count, dedup by photo id then by normalised URL, stop at `count`.
A negative index below the negated candidate count is an uncaught
`IndexError` (`Except.error`). -/
def accumulateImages (photos : List Photo) (count : Nat) :
    List Int → List ResolvedImage → List String → List String →
    Except Unit (List ResolvedImage)
  | [], acc, _, _ => .ok acc
  | idx :: rest, acc, usedIds, usedUrls =>
    if count ≤ acc.length then .ok acc
    else if idx < (photos.length : Int) then
      match pyGet photos idx with
      | none => .error ()
      | some photo =>
        if photo.id ∈ usedIds then accumulateImages photos count rest acc usedIds usedUrls
        else if optimizeUrl photo.regularUrl ∈ usedUrls then
          accumulateImages photos count rest acc usedIds usedUrls
        else
          accumulateImages photos count rest
            (acc ++ [⟨optimizeUrl photo.regularUrl, photo.userName, photo.userLinksHtml⟩])
            (usedIds ++ [photo.id]) (usedUrls ++ [optimizeUrl photo.regularUrl])
    else accumulateImages photos count rest acc usedIds usedUrls

/-- The fallback padding loop of `fetch_unsplash_images` (app.py lines 1189 to
1193): append fallbacks whose URL is not yet present, stopping at `count`. -/
def padImages (fallbacks : List ResolvedImage) (count : Nat) (acc : List ResolvedImage) :
    List ResolvedImage :=
  match fallbacks with
  | [] => acc
  | f :: fs =>
    if f.url ∈ acc.map ResolvedImage.url then padImages fs count acc
    else
      let acc2 := acc ++ [f]
      if count ≤ acc2.length then acc2 else padImages fs count acc2

/-- The cache replacement transaction of `fetch_unsplash_images` (app.py lines
1167 to 1183): inside one transaction delete the rows of `query` and insert
the accumulated images as ranks `0..n-1`; a failure rolls back, leaving the
table exactly as before (sqlite rollback semantics), and is swallowed. -/
def cacheAfterWrite (replaceFails : Bool) (db : List CacheRow) (q : String)
    (acc : List ResolvedImage) : List CacheRow :=
  if acc.isEmpty then db
  else if replaceFails then db
  else
    db.filter (fun r => r.query ≠ q) ++
      acc.enum.map fun p => ⟨q, p.1, p.2.url, p.2.photographer, p.2.photographer_url⟩

/-- Result of one `fetch_unsplash_images` call: the returned images, the cache
state after the call, and effect counters (HTTP search calls issued, whether
the ranker was invoked, whether a cache write was attempted). -/
structure FetchResult where
  images : List ResolvedImage
  cache : List CacheRow
  httpCalls : Nat
  rankerCalled : Bool
  cacheWriteAttempted : Bool
deriving DecidableEq

/-- The sanitised word list of `fetch_unsplash_images`: lower-case the query,
split on whitespace, drop the people-focus words and tokens starting with the
exclusion marker. -/
def sanitizedQueryWords (query : String) : List String :=
  (pySplit (strLower query)).filter fun w =>
    ¬ (w = "selfie" ∨ w = "portrait") ∧ w.data.headD ' ' ≠ '-'

/-- `sanitized_query`: the sanitised words joined by spaces. -/
def sanitizedQuery (query : String) : String := joinSpace (sanitizedQueryWords query)

/-- `destination_name`: the first sanitised word, or the original query when
the sanitised query is empty. -/
def destinationNameOf (query : String) : String :=
  if sanitizedQuery query = "" then query else (pySplit (sanitizedQuery query)).headD query

/-- The ordered list of the five query variations (app.py lines 1041 to 1047). -/
def queryVariations (query : String) : List String :=
  [sanitizedQuery query,
   if 1 < (pySplit (sanitizedQuery query)).length then destinationNameOf query ++ " landmark"
     else sanitizedQuery query,
   if 1 < (pySplit (sanitizedQuery query)).length then destinationNameOf query ++ " cityscape"
     else sanitizedQuery query ++ " city",
   if "india" ∈ pySplit (sanitizedQuery query) ∨ "indian" ∈ pySplit (sanitizedQuery query) then
     "india rajasthan heritage" else destinationNameOf query ++ " architecture",
   if "india" ∈ pySplit (sanitizedQuery query) ∨ "indian" ∈ pySplit (sanitizedQuery query) then
     "india tourist attraction beautiful" else sanitizedQuery query ++ " travel destination"]

/-- The `(raw_photo_data, filtered_photo_data, number of HTTP calls)` produced
by the five-attempt search loop. -/
def searchResultsOf (http : Nat → String → Option (List Photo)) (query : String) (count : Nat) :
    List Photo × List Photo × Nat :=
  searchAttempts http (queryVariations query) count 0 5 [] []

/-- `raw_photo_data` after the `if filtered_photo_data:` reassignment (app.py
lines 1110 to 1111): the filtered list when non-empty, else the raw list. -/
def rawPhotosOf (http : Nat → String → Option (List Photo)) (query : String) (count : Nat) :
    List Photo :=
  if (searchResultsOf http query count).2.1.isEmpty then (searchResultsOf http query count).1
  else (searchResultsOf http query count).2.1

/-- The part of `fetch_unsplash_images` past the cache and key checks: the
five-variation search, the fallback when nothing was found, the ranking call,
ranked accumulation, the swallowed cache replacement, fallback padding, and
the final `[:count]` slice. -/
def fetchViaSearch (http : Nat → String → Option (List Photo)) (rker : RankerEnv)
    (replaceFails : Bool) (db : List CacheRow) (query : String) (count : Nat) :
    Except Unit FetchResult :=
  if (rawPhotosOf http query count).isEmpty then
    .ok ⟨get_fallback_images query count, db, (searchResultsOf http query count).2.2,
      false, false⟩
  else
    match accumulateImages (rawPhotosOf http query count) count
        (select_best_destination_images rker (destinationNameOf query)
          (rawPhotosOf http query count)) [] [] [] with
    | .error e => .error e
    | .ok acc =>
      .ok ⟨(if acc.length < count then
              padImages (get_fallback_images query ((count : Int) - (acc.length : Int)))
                count acc
            else acc).take count,
        cacheAfterWrite replaceFails db query acc,
        (searchResultsOf http query count).2.2, true, !acc.isEmpty⟩

/-- `fetch_unsplash_images(query, count)` (app.py lines 1009 to 1198): cache
fast path, fallback when no key is configured, then the search pipeline.
`Except.error` is an uncaught Python exception. -/
def fetch_unsplash_images (env : Env) (db : List CacheRow) (query : String) (count : Nat) :
    Except Unit FetchResult :=
  if count ≤ (lookupRows db query count).length then
    .ok ⟨((lookupRows db query count).take count).map cachedToImage, db, 0, false, false⟩
  else if env.hasKey = false then
    .ok ⟨get_fallback_images query count, db, 0, false, false⟩
  else fetchViaSearch env.http env.ranker env.replaceFails db query count

/-- A search photo whose normalised URL coincides with the first scenic pool
URL (normalisation leaves it unchanged: all three default keys are present). -/
def photoC1 : Photo :=
  ⟨"p1", "https://images.unsplash.com/photo-1469854523086-cc02fe5d8800?auto=format&q=80&w=1200",
   "A", "L", [], none, none⟩

/-- Environment whose first search attempt returns `photoC1` and whose later
attempts fail; ranking service unavailable; cache writes succeed. -/
def envC1 : Env :=
  ⟨true, fun a _ => if a = 0 then some [photoC1] else none, ⟨false, []⟩, false⟩

/-- Environment whose first search attempt returns `photoC1` and whose
ranking model answers with the ranked-index list `[-2]`. -/
def envC9 : Env :=
  ⟨true, fun a _ => if a = 0 then some [photoC1] else none, ⟨true, [.parsed [-2]]⟩, false⟩

/-! ## Helper lemmas -/

/-- A failed cache replacement leaves the stored rows untouched. -/
theorem cacheAfterWrite_fails (db : List CacheRow) (q : String) (acc : List ResolvedImage) :
    cacheAfterWrite true db q acc = db := by
  unfold cacheAfterWrite
  split <;> simp

/-- When every HTTP attempt fails, the search loop accumulates nothing and
issues one call per remaining attempt. -/
theorem searchAttempts_all_none (http : Nat → String → Option (List Photo))
    (count : Nat) (h : ∀ i s, http i s = none) :
    ∀ (variations : List String) (fuel attempt : Nat) (raw filtered : List Photo),
      searchAttempts http variations count attempt fuel raw filtered = (raw, filtered, fuel) := by
  intro variations fuel
  induction fuel with
  | zero => intro attempt raw filtered; rfl
  | succ n ih =>
    intro attempt raw filtered
    simp [searchAttempts, h, ih]

/-- The URL of a fallback image is the pool URL itself. -/
theorem mkFallbackImage_url (u : String) : (mkFallbackImage u).url = u := rfl

/-- A take of a list with distinct mapped values keeps them distinct. -/
theorem nodup_map_take {α β : Type} (f : α → β) (l : List α) (n : Nat)
    (h : (l.map f).Nodup) : ((l.take n).map f).Nodup := by
  rw [List.map_take]
  exact h.sublist (List.take_sublist _ _)

/-- `pyTake` only ever takes a prefix. -/
theorem pyTake_sublist {α : Type} (c : Int) (l : List α) : (pyTake c l).Sublist l := by
  unfold pyTake
  split <;> exact List.take_sublist _ _

/-- The pool emission loop keeps `used` equal to the emitted URLs and free of
duplicates. -/
theorem emitPool_used_nodup (c : Int) :
    ∀ (us : List String) (acc : List ResolvedImage) (used : List String),
      used = acc.map ResolvedImage.url → used.Nodup →
      (emitPool c us acc used).2.1 = (emitPool c us acc used).1.map ResolvedImage.url ∧
        (emitPool c us acc used).2.1.Nodup := by
  intro us
  induction us with
  | nil => intro acc used h hn; exact ⟨h, hn⟩
  | cons u us ih =>
    intro acc used h hn
    simp only [emitPool]
    by_cases hu : u ∈ used
    · rw [if_pos hu]
      exact ih acc used h hn
    · rw [if_neg hu]
      have h2 : used ++ [u] = (acc ++ [mkFallbackImage u]).map ResolvedImage.url := by
        rw [List.map_append, h]
        rfl
      have hn2 : (used ++ [u]).Nodup := by
        simp [List.nodup_append, hn, hu]
      by_cases hc : c ≤ ((acc ++ [mkFallbackImage u]).length : Int)
      · rw [if_pos hc]
        exact ⟨h2, hn2⟩
      · rw [if_neg hc]
        exact ih (acc ++ [mkFallbackImage u]) (used ++ [u]) h2 hn2

/-- The second emission loop keeps `used` equal to the emitted URLs and free
of duplicates. -/
theorem emitOtherPools_used_nodup (c : Int) (matched : String) :
    ∀ (ts : List (String × Nat)) (acc : List ResolvedImage) (used : List String),
      used = acc.map ResolvedImage.url → used.Nodup →
      (emitOtherPools c matched ts acc used).2.1 =
          (emitOtherPools c matched ts acc used).1.map ResolvedImage.url ∧
        (emitOtherPools c matched ts acc used).2.1.Nodup := by
  intro ts
  induction ts with
  | nil => intro acc used h hn; exact ⟨h, hn⟩
  | cons t ts ih =>
    intro acc used h hn
    by_cases ht : t.1 = matched
    · simpa [emitOtherPools, ht] using ih acc used h hn
    · have hr := emitPool_used_nodup c (lookupPoolOrEmpty t.1) acc used h hn
      by_cases hflag : (emitPool c (lookupPoolOrEmpty t.1) acc used).2.2 = true
      · simpa [emitOtherPools, ht, hflag] using hr
      · have hflag2 : (emitPool c (lookupPoolOrEmpty t.1) acc used).2.2 = false := by
          simpa using hflag
        simpa [emitOtherPools, ht, hflag2] using
          ih (emitPool c (lookupPoolOrEmpty t.1) acc used).1
            (emitPool c (lookupPoolOrEmpty t.1) acc used).2.1 hr.1 hr.2

/-- The two fallback emission passes keep the used-URL set equal to the
emitted URLs and free of duplicates. -/
theorem fallbackPhase2_used_nodup (q : String) (c : Int) :
    (fallbackPhase2 q c).2.1 = (fallbackPhase2 q c).1.map ResolvedImage.url ∧
      (fallbackPhase2 q c).2.1.Nodup := by
  have h1 := emitPool_used_nodup c (lookupPool (matchedTypeOf q)) [] [] rfl List.nodup_nil
  exact emitOtherPools_used_nodup c (matchedTypeOf q) (sortDescByScore (fallbackScores q))
    _ _ h1.1 h1.2

/-- The fallback selector never returns two images with the same URL. -/
theorem get_fallback_nodup (q : String) (c : Int) :
    ((get_fallback_images q c).map ResolvedImage.url).Nodup := by
  have h1 := emitPool_used_nodup c (lookupPool (matchedTypeOf q)) [] [] rfl List.nodup_nil
  have h2 := fallbackPhase2_used_nodup q c
  unfold get_fallback_images
  cases hb1 : (fallbackPhase1 q c).2.2
  · cases hb2 : (fallbackPhase2 q c).2.2
    · cases hbe : (fallbackPhase2 q c).1.isEmpty
      · simp only [hb1, hb2, hbe, if_false, Bool.false_eq_true, if_true]
        exact (h2.1 ▸ h2.2).sublist ((pyTake_sublist c _).map ResolvedImage.url)
      · simp [hb1, hb2, hbe, defaultScenicImage, mkFallbackImage]
    · simp only [hb1, hb2, if_false, Bool.false_eq_true, if_true]
      exact h2.1 ▸ h2.2
  · simp only [hb1, if_true]
    exact h1.1 ▸ h1.2

/-- Padding with fallbacks skips URLs already present, so distinct URLs stay
distinct. -/
theorem padImages_nodup (c : Nat) :
    ∀ (fbs : List ResolvedImage) (acc : List ResolvedImage),
      (acc.map ResolvedImage.url).Nodup →
      ((padImages fbs c acc).map ResolvedImage.url).Nodup := by
  intro fbs
  induction fbs with
  | nil => intro acc h; simpa [padImages] using h
  | cons f fs ih =>
    intro acc h
    simp only [padImages]
    by_cases hf : f.url ∈ acc.map ResolvedImage.url
    · rw [if_pos hf]
      exact ih acc h
    · rw [if_neg hf]
      have h2 : ((acc ++ [f]).map ResolvedImage.url).Nodup := by
        simp [List.nodup_append, h, hf]
      by_cases hc : c ≤ (acc ++ [f]).length
      · rw [if_pos hc]
        exact h2
      · rw [if_neg hc]
        exact ih (acc ++ [f]) h2

/-- The ranked accumulation loop keeps `usedUrls` equal to the accumulated
URLs and free of duplicates, so its output URLs are distinct. -/
theorem accumulateImages_nodup (photos : List Photo) (c : Nat) :
    ∀ (ranked : List Int) (acc : List ResolvedImage) (ids urls : List String)
      (res : List ResolvedImage),
      urls = acc.map ResolvedImage.url → urls.Nodup →
      accumulateImages photos c ranked acc ids urls = .ok res →
      (res.map ResolvedImage.url).Nodup := by
  intro ranked
  induction ranked with
  | nil =>
    intro acc ids urls res h hn hr
    cases hr
    exact h ▸ hn
  | cons idx rest ih =>
    intro acc ids urls res h hn hr
    rw [accumulateImages] at hr
    split at hr
    · cases hr; exact h ▸ hn
    · split at hr
      · split at hr
        · cases hr
        · rename_i photo _
          split at hr
          · exact ih _ _ _ _ h hn hr
          · split at hr
            · exact ih _ _ _ _ h hn hr
            · rename_i hnotin
              refine ih _ _ _ _ ?_ ?_ hr
              · simp [h]
              · have : optimizeUrl photo.regularUrl ∉ urls := hnotin
                simp [List.nodup_append, hn, this]
      · exact ih _ _ _ _ h hn hr

/-! ## Claim theorems -/

/-- C3: if the cache lookup for (query, count) returns at least `count`
entries, `fetch_unsplash_images` returns exactly those entries converted to
the response shape, leaves the cache unchanged, and performs no HTTP search
call, no ranking call and no cache write. -/
theorem claim3_cache_fast_path (env : Env) (db : List CacheRow) (q : String) (c : Nat)
    (h : c ≤ (lookupRows db q c).length) :
    fetch_unsplash_images env db q c =
      .ok ⟨(lookupRows db q c).map cachedToImage, db, 0, false, false⟩ := by
  have hle : (lookupRows db q c).length ≤ c := by
    unfold lookupRows
    simp [List.length_take]
  unfold fetch_unsplash_images
  rw [if_pos h, List.take_of_length_le hle]

/-- Witness for C3 at a concrete one-row cache. -/
theorem claim3_cache_fast_path_witness :
    fetch_unsplash_images ⟨true, fun _ _ => none, ⟨false, []⟩, false⟩
        [⟨"jaipur", 0, "u0", "ph", "pu"⟩] "jaipur" 1 =
      .ok ⟨(lookupRows [⟨"jaipur", 0, "u0", "ph", "pu"⟩] "jaipur" 1).map cachedToImage,
        [⟨"jaipur", 0, "u0", "ph", "pu"⟩], 0, false, false⟩ :=
  claim3_cache_fast_path _ _ _ _ (by decide)

/-- C8: the relevance ranker returns the identity ordering whenever the
generative client is unavailable, the candidate list is empty, or no model
variant yields a syntactically valid non-empty ranking; it is a total
function, so no failure reaches its caller. -/
theorem claim8_ranker_identity (env : RankerEnv) (destination : String) (cands : List Photo)
    (h : env.aiAvailable = false ∨ cands = [] ∨ firstValidRanking env.outcomes = none) :
    select_best_destination_images env destination cands =
      (List.range cands.length).map Int.ofNat := by
  unfold select_best_destination_images
  rcases h with h | h | h
  · simp [h]
  · simp [h]
  · by_cases ha : env.aiAvailable <;> by_cases hc : cands.isEmpty <;> simp [ha, hc, h]

/-- Witness for C8 with an unavailable client. -/
theorem claim8_ranker_identity_witness :
    select_best_destination_images ⟨false, []⟩ "paris"
        [⟨"i", "u", "n", "l", [], none, none⟩] =
      (List.range ([⟨"i", "u", "n", "l", [], none, none⟩] : List Photo).length).map Int.ofNat :=
  claim8_ranker_identity _ _ _ (Or.inl rfl)

/-- C5: a failed HTTP call on one variation contributes zero candidates and
the loop proceeds to the next variation; when every variation fails, the
search yields empty raw and filtered lists and the pipeline returns the
fallback images (all five attempts issued, nothing raised to the caller). -/
theorem claim5_search_failure_handling :
    (∀ (http : Nat → String → Option (List Photo)) (variations : List String)
        (count attempt fuel : Nat) (raw filtered : List Photo),
        http attempt (variations.getD attempt (variations.getD 0 "")) = none →
        searchAttempts http variations count attempt (fuel + 1) raw filtered =
          ((searchAttempts http variations count (attempt + 1) fuel raw filtered).1,
           (searchAttempts http variations count (attempt + 1) fuel raw filtered).2.1,
           (searchAttempts http variations count (attempt + 1) fuel raw filtered).2.2 + 1)) ∧
    (∀ (env : Env) (db : List CacheRow) (q : String) (c : Nat),
        (∀ i s, env.http i s = none) → (lookupRows db q c).length < c → env.hasKey = true →
        fetch_unsplash_images env db q c =
          .ok ⟨get_fallback_images q c, db, 5, false, false⟩) := by
  constructor
  · intro http variations count attempt fuel raw filtered h
    simp only [List.getD_eq_getElem?_getD] at h
    simp [searchAttempts, h]
  · intro env db q c hfail hmiss hkey
    unfold fetch_unsplash_images
    rw [if_neg (by omega), if_neg (by simp [hkey])]
    unfold fetchViaSearch rawPhotosOf searchResultsOf
    simp [searchAttempts_all_none env.http c hfail]

/-- Witness for C5: a lone failing attempt recurses, and an all-failing
environment returns exactly the fallback images with five calls issued. -/
theorem claim5_search_failure_handling_witness :
    searchAttempts (fun _ _ => none) [] 1 0 (0 + 1) [] [] =
      ((searchAttempts (fun _ _ => none) [] 1 (0 + 1) 0 [] []).1,
       (searchAttempts (fun _ _ => none) [] 1 (0 + 1) 0 [] []).2.1,
       (searchAttempts (fun _ _ => none) [] 1 (0 + 1) 0 [] []).2.2 + 1) ∧
    fetch_unsplash_images ⟨true, fun _ _ => none, ⟨false, []⟩, false⟩ [] "z" 1 =
      .ok ⟨get_fallback_images "z" ((1 : Nat) : Int), [], 5, false, false⟩ :=
  ⟨claim5_search_failure_handling.1 (fun _ _ => none) [] 1 0 0 [] [] rfl,
   claim5_search_failure_handling.2 ⟨true, fun _ _ => none, ⟨false, []⟩, false⟩ [] "z" 1
     (fun _ _ => rfl) (by decide) rfl⟩

/-- C2: a cache replacement that fails mid-transaction is rolled back and
swallowed: the run with a failing write returns exactly what the run with a
successful write returns (same images and effect counters, and an error is
propagated in neither or both), except that the cache holds exactly the
pre-call rows. -/
theorem claim2_cache_write_failure_isolated (hk : Bool)
    (http : Nat → String → Option (List Photo)) (rk : RankerEnv)
    (db : List CacheRow) (q : String) (c : Nat) :
    fetch_unsplash_images ⟨hk, http, rk, true⟩ db q c =
      (fetch_unsplash_images ⟨hk, http, rk, false⟩ db q c).map
        (fun r => ⟨r.images, db, r.httpCalls, r.rankerCalled, r.cacheWriteAttempted⟩) := by
  unfold fetch_unsplash_images
  split
  · rfl
  · split
    · rfl
    · dsimp only
      unfold fetchViaSearch
      split
      · rfl
      · split
        · rfl
        · rw [cacheAfterWrite_fails]
          rfl

set_option maxHeartbeats 1600000 in
/-- C4: no two images in one `fetch_unsplash_images` response share a URL,
on every path (cache, ranked search accumulation, fallback, padding, or a
mix), given that the cached rows returned for the query have distinct URLs
(the invariant the write path maintains, since it only ever stores the
deduplicated accumulator). -/
theorem claim4_no_duplicate_urls (env : Env) (db : List CacheRow) (q : String) (c : Nat)
    (hdb : ((lookupRows db q c).map CacheRow.image_url).Nodup)
    (r : FetchResult) (hr : fetch_unsplash_images env db q c = .ok r) :
    (r.images.map ResolvedImage.url).Nodup := by
  unfold fetch_unsplash_images at hr
  split at hr
  · cases hr
    have hfun : ResolvedImage.url ∘ cachedToImage = CacheRow.image_url := rfl
    have : (((lookupRows db q c).take c).map cachedToImage).map ResolvedImage.url =
        ((lookupRows db q c).map CacheRow.image_url).take c := by
      rw [List.map_map, hfun, List.map_take]
    simpa [this] using hdb.sublist (List.take_sublist _ _)
  · split at hr
    · cases hr
      exact get_fallback_nodup q c
    · unfold fetchViaSearch at hr
      split at hr
      · cases hr
        exact get_fallback_nodup q _
      · split at hr
        · cases hr
        · rename_i acc hacc
          cases hr
          have hnacc : (acc.map ResolvedImage.url).Nodup :=
            accumulateImages_nodup _ _ _ [] [] [] acc rfl List.nodup_nil hacc
          by_cases hlt : acc.length < c
          · simp only [hlt, if_true]
            exact nodup_map_take _ _ _
              (padImages_nodup c (get_fallback_images q ((c : Int) - (acc.length : Int)))
                acc hnacc)
          · simp only [hlt, if_false]
            exact nodup_map_take _ _ _ hnacc

/-- Witness for C4 on the key-less fallback path with an empty cache. -/
theorem claim4_no_duplicate_urls_witness :
    ((FetchResult.mk (get_fallback_images "y" (1 : Nat)) [] 0 false false).images.map
      ResolvedImage.url).Nodup :=
  claim4_no_duplicate_urls ⟨false, fun _ _ => none, ⟨false, []⟩, false⟩ [] "y" 1
    (by decide) _ rfl

/-- Emission never shrinks the accumulator. -/
theorem emitPool_length_mono (c : Int) :
    ∀ (us : List String) (acc : List ResolvedImage) (used : List String),
      acc.length ≤ (emitPool c us acc used).1.length := by
  intro us
  induction us with
  | nil => intro acc used; exact Nat.le_refl _
  | cons u us ih =>
    intro acc used
    simp only [emitPool]
    by_cases hu : u ∈ used
    · rw [if_pos hu]
      exact ih acc used
    · rw [if_neg hu]
      by_cases hc : c ≤ ((acc ++ [mkFallbackImage u]).length : Int)
      · rw [if_pos hc]
        simp
      · rw [if_neg hc]
        calc acc.length ≤ (acc ++ [mkFallbackImage u]).length := by simp
          _ ≤ _ := ih (acc ++ [mkFallbackImage u]) (used ++ [u])

/-- The second emission pass never shrinks the accumulator. -/
theorem emitOtherPools_length_mono (c : Int) (matched : String) :
    ∀ (ts : List (String × Nat)) (acc : List ResolvedImage) (used : List String),
      acc.length ≤ (emitOtherPools c matched ts acc used).1.length := by
  intro ts
  induction ts with
  | nil => intro acc used; exact Nat.le_refl _
  | cons t ts ih =>
    intro acc used
    simp only [emitOtherPools]
    by_cases ht : t.1 = matched
    · rw [if_pos ht]
      exact ih acc used
    · rw [if_neg ht]
      by_cases hflag : (emitPool c (lookupPoolOrEmpty t.1) acc used).2.2 = true
      · simp only [hflag, if_true]
        exact emitPool_length_mono c _ acc used
      · simp only [hflag, if_false, Bool.false_eq_true]
        calc acc.length ≤ (emitPool c (lookupPoolOrEmpty t.1) acc used).1.length :=
              emitPool_length_mono c _ acc used
          _ ≤ _ := ih _ _

/-- Membership in a descending insertion. -/
theorem insertDesc_mem (x a : String × Nat) :
    ∀ m : List (String × Nat), x ∈ insertDesc a m → x = a ∨ x ∈ m := by
  intro m
  induction m with
  | nil => intro h; simpa [insertDesc] using h
  | cons y ys ih =>
    intro h
    simp only [insertDesc] at h
    split at h
    · rcases List.mem_cons.mp h with h | h
      · exact Or.inr (List.mem_cons.mpr (Or.inl h))
      · rcases ih h with h | h
        · exact Or.inl h
        · exact Or.inr (List.mem_cons.mpr (Or.inr h))
    · rcases List.mem_cons.mp h with h | h
      · exact Or.inl h
      · exact Or.inr h

/-- Sorting keeps membership. -/
theorem sortDescByScore_mem (x : String × Nat) :
    ∀ l : List (String × Nat), x ∈ sortDescByScore l → x ∈ l := by
  intro l
  induction l with
  | nil => intro h; simpa [sortDescByScore] using h
  | cons a l ih =>
    intro h
    rcases insertDesc_mem x a (sortDescByScore l) h with h | h
    · exact List.mem_cons.mpr (Or.inl h)
    · exact List.mem_cons.mpr (Or.inr (ih h))

/-- The matched pool name is one of the six declared pool names. -/
theorem matchedTypeOf_mem (q : String) :
    matchedTypeOf q ∈ ["nature", "water", "urban", "heritage", "desert", "scenic"] := by
  unfold matchedTypeOf
  cases hsort : sortDescByScore (fallbackScores q) with
  | nil => simp
  | cons t rest =>
    obtain ⟨n, sc⟩ := t
    have ht : (n, sc) ∈ fallbackScores q := by
      apply sortDescByScore_mem
      rw [hsort]
      exact List.mem_cons_self _ rest
    have hname : n ∈ ["nature", "water", "urban", "heritage", "desert", "scenic"] := by
      unfold fallbackScores at ht
      rcases List.mem_map.mp ht with ⟨p, hp, hpe⟩
      have h1 : p.1 = n := congrArg Prod.fst hpe
      have hall : ∀ p ∈ destinationTypes,
          p.1 ∈ ["nature", "water", "urban", "heritage", "desert", "scenic"] := by decide
      exact h1 ▸ hall p hp
    by_cases hs : 0 < sc
    · simpa [hs] using hname
    · simp [hs]

/-- Every pool lookup yields a non-empty URL list. -/
theorem lookupPool_ne_nil (name : String) : lookupPool name ≠ [] := by
  unfold lookupPool
  cases hfind : allFallbackUrls.find? fun p => p.1 = name with
  | none => simp
  | some p =>
    have hp : p ∈ allFallbackUrls := List.mem_of_find?_eq_some hfind
    have hall : ∀ p ∈ allFallbackUrls, p.2 ≠ [] := by decide
    simpa using hall p hp

/-- `pyTake` of a positive bound keeps a non-empty list non-empty. -/
theorem pyTake_ne_nil {α : Type} (c : Int) (l : List α) (hc : 1 ≤ c) (hl : l ≠ []) :
    pyTake c l ≠ [] := by
  unfold pyTake
  rw [if_pos (by omega)]
  simp only [ne_eq, List.take_eq_nil_iff]
  push_neg
  exact ⟨by omega, hl⟩

/-- C10: `get_fallback_images` returns a non-empty list for every query and
every integer count; for `count ≤ 0` it returns exactly one image, the first
URL of the winning pool, because the length check runs only after the first
URL is appended. -/
theorem claim10_fallback_nonempty (q : String) (c : Int) :
    get_fallback_images q c ≠ [] ∧
    (c ≤ 0 → get_fallback_images q c =
      [mkFallbackImage ((lookupPool (matchedTypeOf q)).headD "")]) := by
  obtain ⟨u, us, hpool⟩ := List.exists_cons_of_ne_nil (lookupPool_ne_nil (matchedTypeOf q))
  by_cases hc0 : c ≤ 0
  · have hphase : fallbackPhase1 q c = ([mkFallbackImage u], [u], true) := by
      unfold fallbackPhase1
      rw [hpool]
      simp only [emitPool]
      rw [if_neg (List.not_mem_nil u)]
      rw [if_pos (by simp; omega)]
      simp
    have hres : get_fallback_images q c = [mkFallbackImage u] := by
      unfold get_fallback_images
      rw [hphase]
      rfl
    constructor
    · simp [hres]
    · intro _
      rw [hres, hpool]
      rfl
  · have hc1 : 1 ≤ c := by omega
    have h1len : 1 ≤ (fallbackPhase1 q c).1.length := by
      unfold fallbackPhase1
      rw [hpool]
      simp only [emitPool]
      rw [if_neg (List.not_mem_nil u)]
      by_cases hcc : c ≤ ((([] : List ResolvedImage) ++ [mkFallbackImage u]).length : Int)
      · rw [if_pos hcc]
        simp
      · rw [if_neg hcc]
        have := emitPool_length_mono c us ([] ++ [mkFallbackImage u]) ([] ++ [u])
        simpa using this
    have h2len : 1 ≤ (fallbackPhase2 q c).1.length := by
      unfold fallbackPhase2
      calc 1 ≤ (fallbackPhase1 q c).1.length := h1len
        _ ≤ _ := emitOtherPools_length_mono c _ _ _ _
    refine ⟨?_, fun h => absurd h hc0⟩
    unfold get_fallback_images
    cases hb1 : (fallbackPhase1 q c).2.2
    · cases hb2 : (fallbackPhase2 q c).2.2
      · cases hbe : (fallbackPhase2 q c).1.isEmpty
        · simp only [hb1, hb2, hbe, if_false, Bool.false_eq_true, if_true]
          exact pyTake_ne_nil c _ hc1 (by
            intro hnil
            rw [hnil] at h2len
            simp at h2len)
        · simp [hb1, hb2, hbe]
      · simp only [hb1, hb2, if_false, Bool.false_eq_true, if_true]
        intro hnil
        rw [hnil] at h2len
        simp at h2len
    · simp only [hb1, if_true]
      intro hnil
      rw [hnil] at h1len
      simp at h1len

/-- Witness for C10 at count zero. -/
theorem claim10_fallback_nonempty_witness :
    get_fallback_images "x" 0 ≠ [] ∧
    get_fallback_images "x" 0 =
      [mkFallbackImage ((lookupPool (matchedTypeOf "x")).headD "")] :=
  ⟨(claim10_fallback_nonempty "x" 0).1, (claim10_fallback_nonempty "x" 0).2 (by decide)⟩

/-- Length bookkeeping of one pool emission: starting strictly below the
target, an early return means exactly the target was reached, and running the
pool out leaves the accumulator strictly below the target. -/
theorem emitPool_length (c : Int) :
    ∀ (us : List String) (acc : List ResolvedImage) (used : List String),
      (acc.length : Int) < c →
      ((emitPool c us acc used).2.2 = true → ((emitPool c us acc used).1.length : Int) = c) ∧
      ((emitPool c us acc used).2.2 = false → ((emitPool c us acc used).1.length : Int) < c) := by
  intro us
  induction us with
  | nil =>
    intro acc used h
    exact ⟨fun hf => by simp [emitPool] at hf, fun _ => h⟩
  | cons u us ih =>
    intro acc used h
    simp only [emitPool]
    by_cases hu : u ∈ used
    · rw [if_pos hu]
      exact ih acc used h
    · rw [if_neg hu]
      by_cases hc : c ≤ ((acc ++ [mkFallbackImage u]).length : Int)
      · rw [if_pos hc]
        refine ⟨fun _ => ?_, fun hf => by simp at hf⟩
        simp only [List.length_append, List.length_cons, List.length_nil]
        simp only [List.length_append, List.length_cons, List.length_nil] at hc
        push_cast at hc ⊢
        omega
      · rw [if_neg hc]
        refine ih _ _ ?_
        simp only [List.length_append, List.length_cons, List.length_nil] at hc ⊢
        push_cast at hc ⊢
        omega

/-- Length bookkeeping of the second emission pass, as for one pool. -/
theorem emitOtherPools_length (c : Int) (matched : String) :
    ∀ (ts : List (String × Nat)) (acc : List ResolvedImage) (used : List String),
      (acc.length : Int) < c →
      ((emitOtherPools c matched ts acc used).2.2 = true →
        ((emitOtherPools c matched ts acc used).1.length : Int) = c) ∧
      ((emitOtherPools c matched ts acc used).2.2 = false →
        ((emitOtherPools c matched ts acc used).1.length : Int) < c) := by
  intro ts
  induction ts with
  | nil =>
    intro acc used h
    exact ⟨fun hf => by simp [emitOtherPools] at hf, fun _ => h⟩
  | cons t ts ih =>
    intro acc used h
    simp only [emitOtherPools]
    by_cases ht : t.1 = matched
    · rw [if_pos ht]
      exact ih acc used h
    · rw [if_neg ht]
      have hp := emitPool_length c (lookupPoolOrEmpty t.1) acc used h
      by_cases hflag : (emitPool c (lookupPoolOrEmpty t.1) acc used).2.2 = true
      · simp only [hflag, if_true]
        exact ⟨fun _ => hp.1 hflag, fun hf => by simp at hf⟩
      · have hflag2 : (emitPool c (lookupPoolOrEmpty t.1) acc used).2.2 = false := by
          simpa using hflag
        simp only [hflag2, if_false, Bool.false_eq_true]
        exact ih _ _ (hp.2 hflag2)

/-- Length bookkeeping of the first fallback pass. -/
theorem fallbackPhase1_length (q : String) (c : Int) (hc : 1 ≤ c) :
    ((fallbackPhase1 q c).2.2 = true → ((fallbackPhase1 q c).1.length : Int) = c) ∧
    ((fallbackPhase1 q c).2.2 = false → ((fallbackPhase1 q c).1.length : Int) < c) := by
  unfold fallbackPhase1
  exact emitPool_length c _ [] [] (by simp; omega)

/-- Length bookkeeping of the second fallback pass. -/
theorem fallbackPhase2_length (q : String) (c : Int) (hc : 1 ≤ c)
    (h1 : (fallbackPhase1 q c).2.2 = false) :
    ((fallbackPhase2 q c).2.2 = true → ((fallbackPhase2 q c).1.length : Int) = c) ∧
    ((fallbackPhase2 q c).2.2 = false → ((fallbackPhase2 q c).1.length : Int) < c) := by
  unfold fallbackPhase2
  exact emitOtherPools_length c _ _ _ _ ((fallbackPhase1_length q c hc).2 h1)

/-- A non-negative Python slice never exceeds its bound. -/
theorem pyTake_length_le {α : Type} (c : Int) (l : List α) (h : 0 ≤ c) :
    ((pyTake c l).length : Int) ≤ c := by
  unfold pyTake
  rw [if_pos h]
  simp only [List.length_take]
  omega

/-- The fallback selector never returns more than the requested count. -/
theorem get_fallback_length_le (q : String) (c : Int) (hc : 1 ≤ c) :
    ((get_fallback_images q c).length : Int) ≤ c := by
  unfold get_fallback_images
  cases hb1 : (fallbackPhase1 q c).2.2
  · cases hb2 : (fallbackPhase2 q c).2.2
    · cases hbe : (fallbackPhase2 q c).1.isEmpty
      · simp only [hb1, hb2, hbe, if_false, Bool.false_eq_true, if_true]
        exact pyTake_length_le c _ (by omega)
      · simp only [hb1, hb2, hbe, if_false, Bool.false_eq_true, if_true]
        simpa using hc
    · simp only [hb1, hb2, if_false, Bool.false_eq_true, if_true]
      exact le_of_eq ((fallbackPhase2_length q c hc hb1).1 hb2)
  · simp only [hb1, if_true]
    exact le_of_eq ((fallbackPhase1_length q c hc).1 hb1)

/-- When the supplied fallbacks are at least the deficit, pairwise distinct
and disjoint from the accumulated URLs, padding reaches exactly `count`. -/
theorem padImages_reaches (c : Nat) :
    ∀ (fbs acc : List ResolvedImage),
      acc.length < c → (∀ f ∈ fbs, f.url ∉ acc.map ResolvedImage.url) →
      (fbs.map ResolvedImage.url).Nodup → c - acc.length ≤ fbs.length →
      (padImages fbs c acc).length = c := by
  intro fbs
  induction fbs with
  | nil =>
    intro acc hlt _ _ hge
    exfalso
    simp at hge
    omega
  | cons f fs ih =>
    intro acc hlt hdisj hnodup hge
    have hnd : (∀ x ∈ fs, ¬ x.url = f.url) ∧ (fs.map ResolvedImage.url).Nodup := by
      simpa using hnodup
    simp only [padImages]
    rw [if_neg (hdisj f (List.mem_cons_self f fs))]
    by_cases hc2 : c ≤ (acc ++ [f]).length
    · rw [if_pos hc2]
      simp only [List.length_append, List.length_cons, List.length_nil] at hc2 ⊢
      omega
    · rw [if_neg hc2]
      apply ih (acc ++ [f])
      · simp only [List.length_append, List.length_cons, List.length_nil] at hc2 ⊢
        omega
      · intro g hg
        have hga : g.url ∉ acc.map ResolvedImage.url := hdisj g (List.mem_cons_of_mem f hg)
        have hgf : g.url ≠ f.url := hnd.1 g hg
        simp [hga, hgf]
      · exact hnd.2
      · simp only [List.length_append, List.length_cons, List.length_nil] at hge ⊢
        simp at hge
        omega

set_option maxHeartbeats 1600000 in
/-- C1 (amended): `fetch_unsplash_images` never returns more than `count`
images, and the padding step reaches exactly `count` whenever the fallback
list supplied for the deficit has at least `deficit` entries with pairwise
distinct URLs none of which is already in the accumulator.  (The original
claim, that padding reaches `count` whenever the pools hold enough distinct
unused URLs, fails: the code requests only `deficit` URLs from the selector
and then drops collisions, see the counterexample.) -/
theorem claim1_count_amended (env : Env) (db : List CacheRow) (q : String) (c : Nat)
    (hc : 1 ≤ c) (r : FetchResult) (hr : fetch_unsplash_images env db q c = .ok r)
    (acc fbs : List ResolvedImage) :
    r.images.length ≤ c ∧
    (acc.length < c → (∀ f ∈ fbs, f.url ∉ acc.map ResolvedImage.url) →
      (fbs.map ResolvedImage.url).Nodup → c - acc.length ≤ fbs.length →
      (padImages fbs c acc).length = c) := by
  constructor
  · unfold fetch_unsplash_images at hr
    split at hr
    · cases hr
      simp [List.length_take]
    · split at hr
      · cases hr
        have hcast : (1 : Int) ≤ (c : Int) := by exact_mod_cast hc
        have h := get_fallback_length_le q (c : Int) hcast
        exact_mod_cast h
      · unfold fetchViaSearch at hr
        split at hr
        · cases hr
          have hcast : (1 : Int) ≤ (c : Int) := by exact_mod_cast hc
          have h := get_fallback_length_le q (c : Int) hcast
          exact_mod_cast h
        · split at hr
          · cases hr
          · cases hr
            simp [List.length_take]
  · intro h1 h2 h3 h4
    exact padImages_reaches c fbs acc h1 h2 h3 h4

/-- Witness for C1 (amended) on the key-less path with a one-element
disjoint fallback list. -/
theorem claim1_count_amended_witness :
    (FetchResult.mk (get_fallback_images "y" ((1 : Nat) : Int)) [] 0 false false).images.length
        ≤ 1 ∧
    (padImages [defaultScenicImage] 1 []).length = 1 := by
  have h := claim1_count_amended ⟨false, fun _ _ => none, ⟨false, []⟩, false⟩ [] "y" 1
    (by decide) _ rfl [] [defaultScenicImage]
  exact ⟨h.1, h.2 (by decide) (by decide) (by decide) (by decide)⟩

set_option maxHeartbeats 1600000 in
/-- C1 (counterexample): with one search candidate whose normalised URL
equals the first scenic pool URL, a request for two images returns only one,
even though the scenic pool still holds at least two distinct unused URLs —
so the claim "resolve returns exactly `count` unless the fallback universe
cannot supply `count` distinct URLs" is false as stated. -/
theorem claim1_count_shortfall_cex :
    (fetch_unsplash_images envC1 [] "x" 2).map (fun r => r.images.map ResolvedImage.url) =
      .ok ["https://images.unsplash.com/photo-1469854523086-cc02fe5d8800?auto=format&q=80&w=1200"] ∧
    "https://images.unsplash.com/photo-1476514525535-07fb3b4ae5f1?auto=format&q=80&w=1200" ∈
      lookupPool "scenic" ∧
    "https://images.unsplash.com/photo-1530789253388-582c481c54b0?auto=format&q=80&w=1200" ∈
      lookupPool "scenic" ∧
    ("https://images.unsplash.com/photo-1476514525535-07fb3b4ae5f1?auto=format&q=80&w=1200" ≠
      "https://images.unsplash.com/photo-1530789253388-582c481c54b0?auto=format&q=80&w=1200") ∧
    ("https://images.unsplash.com/photo-1476514525535-07fb3b4ae5f1?auto=format&q=80&w=1200" ≠
      "https://images.unsplash.com/photo-1469854523086-cc02fe5d8800?auto=format&q=80&w=1200") ∧
    ("https://images.unsplash.com/photo-1530789253388-582c481c54b0?auto=format&q=80&w=1200" ≠
      "https://images.unsplash.com/photo-1469854523086-cc02fe5d8800?auto=format&q=80&w=1200") := by
  refine ⟨?_, by decide, by decide, by decide, by decide, by decide⟩
  rfl

/-- The accumulation loop succeeds whenever no ranked index lies below the
negated candidate count, and never grows past `max` of the start length and
the target. -/
theorem accumulateImages_total (photos : List Photo) (c : Nat) :
    ∀ (ranked : List Int) (acc : List ResolvedImage) (ids urls : List String),
      (∀ i ∈ ranked, -(photos.length : Int) ≤ i) →
      ∃ res, accumulateImages photos c ranked acc ids urls = .ok res ∧
        res.length ≤ max acc.length c := by
  intro ranked
  induction ranked with
  | nil =>
    intro acc ids urls _
    exact ⟨acc, rfl, Nat.le_max_left _ _⟩
  | cons idx rest ih =>
    intro acc ids urls hb
    have hbrest : ∀ i ∈ rest, -(photos.length : Int) ≤ i := fun i hi =>
      hb i (List.mem_cons_of_mem _ hi)
    simp only [accumulateImages]
    by_cases h1 : c ≤ acc.length
    · rw [if_pos h1]
      exact ⟨acc, rfl, Nat.le_max_left _ _⟩
    · rw [if_neg h1]
      by_cases h2 : idx < (photos.length : Int)
      · rw [if_pos h2]
        have hsome : ∃ photo, pyGet photos idx = some photo := by
          unfold pyGet
          by_cases h3 : 0 ≤ idx
          · rw [if_pos h3]
            have hlt : idx.toNat < photos.length := by omega
            exact ⟨_, List.getElem?_eq_getElem hlt⟩
          · have hge : (0 : Int) ≤ idx + (photos.length : Int) := by
              have := hb idx (List.mem_cons_self _ _)
              omega
            rw [if_neg h3, if_pos hge]
            have hlt : (idx + (photos.length : Int)).toNat < photos.length := by omega
            exact ⟨_, List.getElem?_eq_getElem hlt⟩
        obtain ⟨photo, hph⟩ := hsome
        rw [hph]
        dsimp only
        by_cases h4 : photo.id ∈ ids
        · rw [if_pos h4]
          exact ih acc ids urls hbrest
        · rw [if_neg h4]
          by_cases h5 : optimizeUrl photo.regularUrl ∈ urls
          · rw [if_pos h5]
            exact ih acc ids urls hbrest
          · rw [if_neg h5]
            obtain ⟨res, hres, hlen⟩ := ih
              (acc ++ [⟨optimizeUrl photo.regularUrl, photo.userName, photo.userLinksHtml⟩])
              (ids ++ [photo.id]) (urls ++ [optimizeUrl photo.regularUrl]) hbrest
            refine ⟨res, hres, ?_⟩
            simp only [List.length_append, List.length_cons, List.length_nil] at hlen
            omega
      · rw [if_neg h2]
        exact ih acc ids urls hbrest

/-- C9 (amended): the candidate-accumulation loop is total and bounded for
every ranked-index list whose entries are at least the negated candidate
count: an index at or above the candidate count is silently skipped, repeats
are skipped, and at most `count` images accumulate.  (For an index below the
negated candidate count the loop raises an uncaught `IndexError` — Python
negative indexing — see the counterexample.) -/
theorem claim9_accumulation_amended :
    (∀ (photos : List Photo) (c : Nat) (ranked : List Int),
        (∀ i ∈ ranked, -(photos.length : Int) ≤ i) →
        ∃ res, accumulateImages photos c ranked [] [] [] = .ok res ∧ res.length ≤ c) ∧
    (∀ (photos : List Photo) (c : Nat) (idx : Int) (rest : List Int)
        (acc : List ResolvedImage) (ids urls : List String),
        acc.length < c → (photos.length : Int) ≤ idx →
        accumulateImages photos c (idx :: rest) acc ids urls =
          accumulateImages photos c rest acc ids urls) := by
  constructor
  · intro photos c ranked hb
    obtain ⟨res, h1, h2⟩ := accumulateImages_total photos c ranked [] [] [] hb
    exact ⟨res, h1, by simpa using h2⟩
  · intro photos c idx rest acc ids urls hlt hge
    simp only [accumulateImages]
    rw [if_neg (by omega), if_neg (by omega)]

/-- Witness for C9 (amended) on one candidate with a ranked list holding a
valid negative index, an out-of-range index and a repeat. -/
theorem claim9_accumulation_amended_witness :
    (accumulateImages [photoC1] 1 [-1, 5, 0] [] [] []).map (fun res =>
      decide (res.length ≤ 1)) = .ok true ∧
    accumulateImages [photoC1] 1 [1] [] [] [] = accumulateImages [photoC1] 1 [] [] [] [] := by
  constructor
  · obtain ⟨res, h1, h2⟩ := claim9_accumulation_amended.1 [photoC1] 1 [-1, 5, 0] (by decide)
    rw [h1]
    simp [Except.map, h2]
  · exact claim9_accumulation_amended.2 [photoC1] 1 1 [] [] [] [] (by decide) (by decide)

set_option maxHeartbeats 1600000 in
/-- C9 (counterexample): a ranked index of `-2` against a single candidate
passes the `idx < len` guard, and Python indexing raises an uncaught
`IndexError` that escapes both the loop and `fetch_unsplash_images`. -/
theorem claim9_negative_index_cex :
    accumulateImages [photoC1] 1 [-2] [] [] [] = .error () ∧
    fetch_unsplash_images envC9 [] "x" 1 = .error () :=
  ⟨rfl, rfl⟩

/-- One fold step of `bestOf` commutes into a comparison with the tail best. -/
theorem bestOf_step :
    ∀ (l : List (String × Nat)) (a x : String × Nat),
      bestOf (if a.2 < x.2 then x else a) l =
        if a.2 < (bestOf x l).2 then bestOf x l else a := by
  intro l
  induction l with
  | nil =>
    intro a x
    rfl
  | cons y l ih =>
    intro a x
    by_cases h1 : a.2 < x.2
    · rw [if_pos h1]
      simp only [bestOf]
      rw [ih x y]
      split_ifs <;> first | rfl | omega
    · rw [if_neg h1]
      simp only [bestOf]
      rw [ih a y, ih x y]
      split_ifs <;> first | rfl | omega

/-- Head of a descending insertion. -/
theorem insertDesc_head (a : String × Nat) (m : List (String × Nat)) :
    (insertDesc a m).head? =
      some (match m.head? with
            | none => a
            | some y => if a.2 < y.2 then y else a) := by
  cases m with
  | nil => rfl
  | cons y ys =>
    simp only [insertDesc, List.head?_cons]
    by_cases h : a.2 < y.2
    · rw [if_pos h]
      simp [h]
    · rw [if_neg h]
      simp [h]

/-- The head of the stable descending sort is the first highest-scoring
entry. -/
theorem sortDescByScore_head :
    ∀ (l : List (String × Nat)) (a : String × Nat),
      (sortDescByScore (a :: l)).head? = some (bestOf a l) := by
  intro l
  induction l with
  | nil => intro a; rfl
  | cons x l ih =>
    intro a
    have hstep : sortDescByScore (a :: x :: l) = insertDesc a (sortDescByScore (x :: l)) := rfl
    rw [hstep, insertDesc_head, ih x]
    show some (if a.2 < (bestOf x l).2 then bestOf x l else a) =
      some (bestOf (if a.2 < x.2 then x else a) l)
    rw [bestOf_step]

/-- The code selection (head of the stable descending sort, scenic on a zero
top score) equals the spec selection (first strict-improvement maximum). -/
theorem matched_eq_best (scores : List (String × Nat)) (a : String × Nat) :
    (match sortDescByScore (a :: scores) with
     | [] => "scenic"
     | (n, s) :: _ => if 0 < s then n else "scenic") =
      (if 0 < (bestOf a scores).2 then (bestOf a scores).1 else "scenic") := by
  have h := sortDescByScore_head scores a
  cases hs : sortDescByScore (a :: scores) with
  | nil => rw [hs] at h; cases h
  | cons t rest =>
    rw [hs] at h
    simp only [List.head?_cons, Option.some.injEq] at h
    obtain ⟨n, sc⟩ := t
    rw [← h]

/-- C6: the fallback pool selection lower-cases the query, scores the six
pools by keyword occurrence, picks the highest-scoring pool with ties broken
by declaration order (nature first), defaults to scenic on an all-zero score,
and selects the desert pool for the query "desert canyon trip". -/
theorem claim6_fallback_pool_selection :
    (∀ q : String, matchedTypeOf q = specWinningPool q) ∧
    matchedTypeOf "desert canyon trip" = "desert" := by
  constructor
  · intro q
    show (match sortDescByScore (fallbackScores q) with
          | [] => "scenic"
          | (n, s) :: _ => if 0 < s then n else "scenic") = specWinningPool q
    exact matched_eq_best _ _
  · decide

/-- The part before the first occurrence never contains the separator. -/
theorem splitAtFirstChar_not_mem (c : Char) : ∀ l : List Char, c ∉ (splitAtFirstChar c l).1 := by
  intro l
  induction l with
  | nil => simp [splitAtFirstChar]
  | cons x xs ih =>
    simp only [splitAtFirstChar]
    by_cases h : x = c
    · rw [if_pos h]
      simp
    · rw [if_neg h]
      simp only [List.mem_cons]
      rintro (h1 | h1)
      · exact h h1.symm
      · exact ih h1

/-- Splitting at an absent separator returns the whole list. -/
theorem splitAtFirstChar_of_not_mem (c : Char) :
    ∀ l : List Char, c ∉ l → splitAtFirstChar c l = (l, none) := by
  intro l
  induction l with
  | nil => intro _; rfl
  | cons x xs ih =>
    intro h
    simp only [List.mem_cons, not_or] at h
    simp only [splitAtFirstChar]
    rw [if_neg (fun he => h.1 he.symm), ih h.2]

/-- Splitting at the first separator after a clean prefix. -/
theorem splitAtFirstChar_append (c : Char) :
    ∀ (pre post : List Char), c ∉ pre →
      splitAtFirstChar c (pre ++ c :: post) = (pre, some post) := by
  intro pre
  induction pre with
  | nil =>
    intro post _
    simp [splitAtFirstChar]
  | cons x xs ih =>
    intro post h
    simp only [List.mem_cons, not_or] at h
    simp only [List.cons_append, splitAtFirstChar, List.append_eq]
    rw [if_neg (fun he => h.1 he.symm), ih post h.2]

/-- The part before the first occurrence is drawn from the input. -/
theorem splitAtFirstChar_fst_subset (c : Char) :
    ∀ l : List Char, ∀ x ∈ (splitAtFirstChar c l).1, x ∈ l := by
  intro l
  induction l with
  | nil => simp [splitAtFirstChar]
  | cons y ys ih =>
    intro x
    simp only [splitAtFirstChar]
    by_cases h : y = c
    · rw [if_pos h]
      simp
    · rw [if_neg h]
      simp only [List.mem_cons]
      rintro (h1 | h1)
      · exact Or.inl h1
      · exact Or.inr (ih x h1)

/-- The part after the first occurrence is drawn from the input. -/
theorem splitAtFirstChar_snd_subset (c : Char) :
    ∀ l r : List Char, (splitAtFirstChar c l).2 = some r → ∀ x ∈ r, x ∈ l := by
  intro l
  induction l with
  | nil => intro r hr; cases hr
  | cons y ys ih =>
    intro r hr x hx
    simp only [splitAtFirstChar] at hr
    by_cases h : y = c
    · rw [if_pos h] at hr
      cases hr
      exact List.mem_cons_of_mem y hx
    · rw [if_neg h] at hr
      exact List.mem_cons_of_mem y (ih r hr x hx)

/-- Splitting everywhere at an absent separator returns the whole list. -/
theorem splitAllChar_of_not_mem (c : Char) :
    ∀ l : List Char, c ∉ l → splitAllChar c l = [l] := by
  intro l
  induction l with
  | nil => intro _; rfl
  | cons x xs ih =>
    intro h
    simp only [List.mem_cons, not_or] at h
    simp only [splitAllChar]
    rw [if_neg (fun he => h.1 he.symm), ih h.2]

/-- Splitting everywhere peels one clean field off the front. -/
theorem splitAllChar_append (c : Char) :
    ∀ (pre post : List Char), c ∉ pre →
      splitAllChar c (pre ++ c :: post) = pre :: splitAllChar c post := by
  intro pre
  induction pre with
  | nil =>
    intro post _
    simp [splitAllChar]
  | cons x xs ih =>
    intro post h
    simp only [List.mem_cons, not_or] at h
    simp only [List.cons_append, splitAllChar, List.append_eq]
    rw [if_neg (fun he => h.1 he.symm), ih post h.2]

/-- Packing a valid code point and unpacking it is the identity. -/
theorem char_toNat_ofNat_valid (n : Nat) (hn : n < 55296) : (Char.ofNat n).toNat = n := by
  rw [Char.ofNat, dif_pos (Or.inl hn)]
  rfl

/-- Lower-casing cannot produce a character outside the lower-case letter
range, so it preserves the absence of such a character. -/
theorem toLower_ne_of_ne (c t : Char) (ht : t.toNat < 97 ∨ 122 < t.toNat) (h : c ≠ t) :
    Char.toLower c ≠ t := by
  unfold Char.toLower
  show (if c.toNat ≥ 65 ∧ c.toNat ≤ 90 then Char.ofNat (c.toNat + 32) else c) ≠ t
  split
  · rename_i hrange
    intro he
    have h1 : (Char.ofNat (c.toNat + 32)).toNat = t.toNat := congrArg Char.toNat he
    rw [char_toNat_ofNat_valid (c.toNat + 32) (by omega)] at h1
    omega
  · exact h

/-- Encoding pairs free of hash marks yields a string free of hash marks. -/
theorem hash_not_mem_urlencodeCs :
    ∀ ps : List (List Char × List Char),
      (∀ p ∈ ps, '#' ∉ p.1 ∧ '#' ∉ p.2) → '#' ∉ urlencodeCs ps := by
  intro ps
  induction ps with
  | nil =>
    intro _
    simp [urlencodeCs]
  | cons p rest ih =>
    intro h
    have hp := h p (List.mem_cons_self _ _)
    have hne1 : ('#' : Char) ≠ '=' := by decide
    have hne2 : ('#' : Char) ≠ '&' := by decide
    have ihh := ih fun r hr => h r (List.mem_cons_of_mem _ hr)
    cases rest with
    | nil =>
      simp only [urlencodeCs, List.mem_append, List.mem_cons]
      tauto
    | cons q rest2 =>
      simp only [urlencodeCs, List.mem_append, List.mem_cons]
      tauto

/-- A clean encoded field is non-empty and splits back into its pair. -/
theorem qslField_some (k v : List Char) (hk : '=' ∉ k) :
    (k ++ '=' :: v).isEmpty = false ∧ splitAtFirstChar '=' (k ++ '=' :: v) = (k, some v) := by
  constructor
  · cases k <;> simp [List.isEmpty]
  · exact splitAtFirstChar_append '=' k v hk

/-- Parsing an encoded pair list recovers it exactly, when keys are free of
separators and values free of ampersands. -/
theorem qsl_roundtrip :
    ∀ ps : List (List Char × List Char),
      (∀ p ∈ ps, '&' ∉ p.1 ∧ '=' ∉ p.1 ∧ '&' ∉ p.2) →
      qslPairsCs (urlencodeCs ps) = ps := by
  intro ps
  induction ps with
  | nil => intro _; rfl
  | cons p rest ih =>
    intro h
    have hp := h p (List.mem_cons_self _ _)
    have hclean : '&' ∉ p.1 ++ '=' :: p.2 := by
      simp only [List.mem_append, List.mem_cons, not_or]
      exact ⟨hp.1, by decide, hp.2.2⟩
    have hfield := qslField_some p.1 p.2 hp.2.1
    cases rest with
    | nil =>
      show qslPairsCs (p.1 ++ '=' :: p.2) = [p]
      unfold qslPairsCs
      rw [splitAllChar_of_not_mem '&' _ hclean]
      simp [hfield.1, hfield.2]
    | cons q rest2 =>
      have hshape : urlencodeCs (p :: q :: rest2) =
          (p.1 ++ '=' :: p.2) ++ '&' :: urlencodeCs (q :: rest2) := by
        simp [urlencodeCs, List.append_assoc]
      rw [hshape]
      unfold qslPairsCs
      rw [splitAllChar_append '&' _ _ hclean]
      rw [List.filterMap_cons]
      have ih2 := ih (fun r hr => h r (List.mem_cons_of_mem _ hr))
      unfold qslPairsCs at ih2
      simp only [hfield.1, hfield.2, Bool.false_eq_true, if_false, ih2]

/-- Parsing an encoded pair list of strings recovers it exactly. -/
theorem parse_qsl_urlencode (ps : List (String × String))
    (h : ∀ p ∈ ps, QslPairOk p) :
    parse_qsl (urlencode ps) = ps := by
  unfold parse_qsl urlencode
  have hside : ∀ p ∈ ps.map (fun p : String × String => (p.1.data, p.2.data)),
      '&' ∉ p.1 ∧ '=' ∉ p.1 ∧ '&' ∉ p.2 := by
    intro p hp
    rcases List.mem_map.mp hp with ⟨r, hr, hre⟩
    have hrr := h r hr
    rw [← hre]
    exact ⟨hrr.1.1, hrr.1.2.1, hrr.2.1⟩
  rw [qsl_roundtrip _ hside, List.map_map]
  have hco : ((fun p : List Char × List Char => ((⟨p.1⟩ : String), (⟨p.2⟩ : String))) ∘
      (fun p : String × String => (p.1.data, p.2.data))) = fun p : String × String => p := by
    funext p
    rfl
  rw [hco]
  exact List.map_id' ps

/-- Bool form of dict key membership. -/
theorem dictContains_iff (d : List (String × String)) (k : String) :
    dictContains d k = true ↔ k ∈ d.map Prod.fst := by
  simp [dictContains, List.any_eq_true, List.mem_map]

/-- Negative Bool form of dict key membership. -/
theorem dictContains_eq_false (d : List (String × String)) (k : String) :
    dictContains d k = false ↔ k ∉ d.map Prod.fst := by
  rw [← dictContains_iff]
  cases dictContains d k <;> simp

/-- Key membership across an appended singleton. -/
theorem dictContains_append (d : List (String × String)) (p : String × String) (k : String) :
    dictContains (d ++ [p]) k = (dictContains d k || decide (p.1 = k)) := by
  simp [dictContains, List.any_append]

/-- Folding dict insertion over pairs with fresh distinct keys appends them. -/
theorem foldl_dictInsert (ps : List (String × String)) :
    ∀ d, (ps.map Prod.fst).Nodup → (∀ k ∈ ps.map Prod.fst, dictContains d k = false) →
      ps.foldl (fun d p => dictInsert d p.1 p.2) d = d ++ ps := by
  induction ps with
  | nil => intro d _ _; simp
  | cons p rest ih =>
    intro d hnd hd
    have hdp : dictContains d p.1 = false := hd p.1 (by simp)
    have hnd2 : (p.1 ∉ rest.map Prod.fst) ∧ (rest.map Prod.fst).Nodup := by
      simpa using hnd
    simp only [List.foldl_cons]
    have hins : dictInsert d p.1 p.2 = d ++ [p] := by
      unfold dictInsert
      rw [hdp]
      simp
    rw [hins, ih (d ++ [p]) hnd2.2]
    · simp
    · intro k hk
      rw [dictContains_append]
      have h1 : dictContains d k = false := hd k (List.mem_cons_of_mem _ hk)
      have h2 : p.1 ≠ k := fun he => hnd2.1 (he ▸ hk)
      simp [h1, h2]

/-- The dict comprehension is the identity on a pair list with distinct
keys. -/
theorem dictOfPairs_eq_self (ps : List (String × String))
    (h : (ps.map Prod.fst).Nodup) : dictOfPairs ps = ps := by
  unfold dictOfPairs
  have := foldl_dictInsert ps [] h (fun k _ => rfl)
  simpa using this

/-- Setting a present key is the identity. -/
theorem setDefaultParam_of_contains (d : List (String × String)) (k v : String)
    (h : dictContains d k = true) : setDefaultParam d k v = d := by
  unfold setDefaultParam
  simp [h]

/-- Setting an absent key appends it. -/
theorem setDefaultParam_of_not (d : List (String × String)) (k v : String)
    (h : dictContains d k = false) : setDefaultParam d k v = d ++ [(k, v)] := by
  unfold setDefaultParam
  simp [h]

/-- The three default injections append exactly the missing defaults, in
order. -/
theorem setDefaults_append (d : List (String × String)) :
    setDefaultParam (setDefaultParam (setDefaultParam d "auto" "format") "q" "80") "w" "1200" =
      d ++ defaultParams.filter (fun kv => kv.1 ∉ d.map Prod.fst) := by
  by_cases ha : "auto" ∈ d.map Prod.fst
  · have e1 : setDefaultParam d "auto" "format" = d :=
      setDefaultParam_of_contains _ _ _ ((dictContains_iff _ _).mpr ha)
    rw [e1]
    by_cases hq : "q" ∈ d.map Prod.fst
    · have e2 : setDefaultParam d "q" "80" = d :=
        setDefaultParam_of_contains _ _ _ ((dictContains_iff _ _).mpr hq)
      rw [e2]
      by_cases hw : "w" ∈ d.map Prod.fst
      · rw [setDefaultParam_of_contains _ _ _ ((dictContains_iff _ _).mpr hw)]
        simp [defaultParams, ha, hq, hw]
      · rw [setDefaultParam_of_not _ _ _ ((dictContains_eq_false _ _).mpr hw)]
        simp [defaultParams, ha, hq, hw]
    · have e2 : setDefaultParam d "q" "80" = d ++ [("q", "80")] :=
        setDefaultParam_of_not _ _ _ ((dictContains_eq_false _ _).mpr hq)
      rw [e2]
      by_cases hw : "w" ∈ d.map Prod.fst
      · have hw1 : dictContains (d ++ [("q", "80")]) "w" = true := by
          rw [dictContains_append]
          simp [(dictContains_iff _ _).mpr hw]
        rw [setDefaultParam_of_contains _ _ _ hw1]
        simp [defaultParams, ha, hq, hw]
      · have hw1 : dictContains (d ++ [("q", "80")]) "w" = false := by
          rw [dictContains_append]
          simp [(dictContains_eq_false _ _).mpr hw]
        rw [setDefaultParam_of_not _ _ _ hw1]
        simp [defaultParams, ha, hq, hw]
  · have e1 : setDefaultParam d "auto" "format" = d ++ [("auto", "format")] :=
      setDefaultParam_of_not _ _ _ ((dictContains_eq_false _ _).mpr ha)
    rw [e1]
    by_cases hq : "q" ∈ d.map Prod.fst
    · have hq1 : dictContains (d ++ [("auto", "format")]) "q" = true := by
        rw [dictContains_append]
        simp [(dictContains_iff _ _).mpr hq]
      have e2 : setDefaultParam (d ++ [("auto", "format")]) "q" "80" =
          d ++ [("auto", "format")] := setDefaultParam_of_contains _ _ _ hq1
      rw [e2]
      by_cases hw : "w" ∈ d.map Prod.fst
      · have hw1 : dictContains (d ++ [("auto", "format")]) "w" = true := by
          rw [dictContains_append]
          simp [(dictContains_iff _ _).mpr hw]
        rw [setDefaultParam_of_contains _ _ _ hw1]
        simp [defaultParams, ha, hq, hw]
      · have hw1 : dictContains (d ++ [("auto", "format")]) "w" = false := by
          rw [dictContains_append]
          simp [(dictContains_eq_false _ _).mpr hw]
        rw [setDefaultParam_of_not _ _ _ hw1]
        simp [defaultParams, ha, hq, hw, List.append_assoc]
    · have hq1 : dictContains (d ++ [("auto", "format")]) "q" = false := by
        rw [dictContains_append]
        simp [(dictContains_eq_false _ _).mpr hq]
      have e2 : setDefaultParam (d ++ [("auto", "format")]) "q" "80" =
          d ++ [("auto", "format")] ++ [("q", "80")] := setDefaultParam_of_not _ _ _ hq1
      rw [e2]
      by_cases hw : "w" ∈ d.map Prod.fst
      · have hw1 : dictContains (d ++ [("auto", "format")] ++ [("q", "80")]) "w" = true := by
          rw [dictContains_append, dictContains_append]
          simp [(dictContains_iff _ _).mpr hw]
        rw [setDefaultParam_of_contains _ _ _ hw1]
        simp [defaultParams, ha, hq, hw, List.append_assoc]
      · have hw1 : dictContains (d ++ [("auto", "format")] ++ [("q", "80")]) "w" = false := by
          rw [dictContains_append, dictContains_append]
          simp [(dictContains_eq_false _ _).mpr hw]
        rw [setDefaultParam_of_not _ _ _ hw1]
        simp [defaultParams, ha, hq, hw, List.append_assoc]

/-- Both halves of a last-occurrence split are drawn from the input. -/
theorem splitAtLastChar_subset (c : Char) (l pre post : List Char)
    (h : splitAtLastChar c l = some (pre, post)) :
    (∀ x ∈ pre, x ∈ l) ∧ (∀ x ∈ post, x ∈ l) := by
  simp only [splitAtLastChar] at h
  split at h
  · cases h
  · rename_i before hs
    cases h
    constructor
    · intro x hx
      rw [List.mem_reverse] at hx
      rw [← List.mem_reverse]
      exact splitAtFirstChar_snd_subset c l.reverse before hs x hx
    · intro x hx
      rw [List.mem_reverse] at hx
      rw [← List.mem_reverse]
      exact splitAtFirstChar_fst_subset c l.reverse x hx

/-- Characters of the params-stripped path come from the input or are a
slash. -/
theorem pySplitParams_fst_mem (l : List Char) (x : Char)
    (h : x ∈ (pySplitParams l).1) : x ∈ l ∨ x = '/' := by
  unfold pySplitParams at h
  split at h
  · split at h
    · split at h
      · rename_i pre post hlast
        split at h
        · rename_i seg ps hsemi
          simp only [List.mem_append, List.mem_cons] at h
          rcases h with h | h | h
          · exact Or.inl ((splitAtLastChar_subset '/' l pre post hlast).1 x h)
          · exact Or.inr h
          · have h1 : x ∈ post := splitAtFirstChar_fst_subset ';' post x (by rw [hsemi]; exact h)
            exact Or.inl ((splitAtLastChar_subset '/' l pre post hlast).2 x h1)
        · exact Or.inl h
      · exact Or.inl h
    · split at h
      · rename_i seg ps hsemi
        have h1 : x ∈ (splitAtFirstChar ';' l).1 := by rw [hsemi]; exact h
        exact Or.inl (splitAtFirstChar_fst_subset ';' l x h1)
      · exact Or.inl h
  · exact Or.inl h

/-- Characters of the split-off params come from the input. -/
theorem pySplitParams_snd_mem (l : List Char) (x : Char)
    (h : x ∈ (pySplitParams l).2) : x ∈ l := by
  unfold pySplitParams at h
  split at h
  · split at h
    · split at h
      · rename_i pre post hlast
        split at h
        · rename_i seg ps hsemi
          have h1 : x ∈ post := splitAtFirstChar_snd_subset ';' post ps (by rw [hsemi]) x h
          exact (splitAtLastChar_subset '/' l pre post hlast).2 x h1
        · cases h
      · cases h
    · split at h
      · rename_i seg ps hsemi
        exact splitAtFirstChar_snd_subset ';' l ps (by rw [hsemi]) x h
      · cases h
  · cases h

/-- No hash mark before the query position. -/
theorem hash_not_mem_beforeQ (u : String) : '#' ∉ urlparseBeforeQ u := fun h =>
  splitAtFirstChar_not_mem '#' u.data (splitAtFirstChar_fst_subset '?' _ '#' h)

/-- No question mark before the query position. -/
theorem qmark_not_mem_beforeQ (u : String) : '?' ∉ urlparseBeforeQ u :=
  splitAtFirstChar_not_mem '?' _

/-- A character absent from the pre-query part, outside the lower-case range
and distinct from a slash, is absent from every parsed pre-query component. -/
theorem urlparse_prefix_clean (u : String) (t : Char)
    (htl : t.toNat < 97 ∨ 122 < t.toNat) (hsl : t ≠ '/')
    (hbq : t ∉ urlparseBeforeQ u) :
    t ∉ (urlparse u).scheme.data ∧ t ∉ (urlparse u).netloc.data ∧
      t ∉ (urlparse u).path.data ∧ t ∉ (urlparse u).params.data := by
  have hrest : ∀ x ∈ (urlparseSchemeRest u).2, x ∈ urlparseBeforeQ u := by
    unfold urlparseSchemeRest
    split
    · rename_i r hs
      split
      · intro x hx
        exact splitAtFirstChar_snd_subset ':' _ r hs x hx
      · intro x hx
        exact hx
    · intro x hx
      exact hx
  have hscheme : t ∉ (urlparseSchemeRest u).1 := by
    unfold urlparseSchemeRest
    split
    · rename_i r hs
      split
      · intro hmem
        rcases List.mem_map.mp hmem with ⟨y, hy, hye⟩
        have hysub : y ∈ urlparseBeforeQ u := splitAtFirstChar_fst_subset ':' _ y hy
        have hne : y ≠ t := fun he => hbq (he ▸ hysub)
        exact toLower_ne_of_ne y t htl hne hye
      · simp
    · simp
  have hrest2 : ∀ x ∈ (urlparseNetRest u).2, x ∈ urlparseBeforeQ u := by
    unfold urlparseNetRest
    split
    · rename_i r hmatch
      intro x hx
      have h1 : x ∈ r := List.dropWhile_subset _ hx
      refine hrest x ?_
      rw [hmatch]
      exact List.mem_cons_of_mem _ (List.mem_cons_of_mem _ h1)
    · intro x hx
      exact hrest x hx
  have hnet : t ∉ (urlparseNetRest u).1 := by
    unfold urlparseNetRest
    split
    · rename_i r hmatch
      intro hmem
      have h1 : t ∈ r := List.takeWhile_subset _ hmem
      refine hbq (hrest t ?_)
      rw [hmatch]
      exact List.mem_cons_of_mem _ (List.mem_cons_of_mem _ h1)
    · simp
  have hpath : t ∉ (urlparsePathParams u).1 := by
    unfold urlparsePathParams
    split
    · intro hmem
      rcases pySplitParams_fst_mem _ t hmem with h1 | h1
      · exact hbq (hrest2 t h1)
      · exact hsl h1
    · intro hmem
      exact hbq (hrest2 t hmem)
  have hparams : t ∉ (urlparsePathParams u).2 := by
    unfold urlparsePathParams
    split
    · intro hmem
      exact hbq (hrest2 t (pySplitParams_snd_mem _ t hmem))
    · simp
  exact ⟨hscheme, hnet, hpath, hparams⟩

/-- A character absent from all four pre-query components and distinct from
the inserted separators is absent from the rebuilt pre-query prefix. -/
theorem unparse_prefix_clean (p : UrlParts) (t : Char)
    (hs : t ∉ p.scheme.data) (hn : t ∉ p.netloc.data) (hp : t ∉ p.path.data)
    (hpr : t ∉ p.params.data) (hco : t ≠ ':') (hsl : t ≠ '/') (hse : t ≠ ';') :
    t ∉ urlunparsePrefixCs p := by
  have hpath : t ∉ urlunparsePathCs p := by
    unfold urlunparsePathCs
    split
    · exact hp
    · intro hmem
      simp only [List.mem_append, List.mem_cons] at hmem
      rcases hmem with h | h | h
      · exact hp h
      · exact hse h
      · exact hpr h
  have hnet2 : t ∉ urlunparseNetCs p := by
    unfold urlunparseNetCs
    split
    · split
      · intro hmem
        simp only [List.mem_cons, List.mem_append] at hmem
        rcases hmem with h | h | h | h | h
        · exact hsl h
        · exact hsl h
        · exact hn h
        · exact hsl h
        · exact hpath h
      · intro hmem
        simp only [List.mem_cons, List.mem_append] at hmem
        rcases hmem with h | h | h | h
        · exact hsl h
        · exact hsl h
        · exact hn h
        · exact hpath h
    · exact hpath
  unfold urlunparsePrefixCs
  split
  · exact hnet2
  · intro hmem
    simp only [List.mem_append, List.mem_cons] at hmem
    rcases hmem with h | h | h
    · exact hs h
    · exact hco h
    · exact hnet2 h

/-- Re-parsing a rebuilt URL recovers its query exactly, provided the prefix
holds no hash or question mark and the query holds no hash mark. -/
theorem urlparse_query_of_unparse (p : UrlParts)
    (hpre1 : '#' ∉ urlunparsePrefixCs p) (hpre2 : '?' ∉ urlunparsePrefixCs p)
    (hq : '#' ∉ p.query.data) :
    (urlparse (urlunparse p)).query = p.query := by
  have hdata : (urlunparse p).data = urlunparseCs p := rfl
  show (⟨urlparseQueryCs (urlunparse p)⟩ : String) = p.query
  unfold urlparseQueryCs
  rw [hdata]
  unfold urlunparseCs
  cases hfrag : p.fragment.data.isEmpty
  · cases hqe : p.query.data.isEmpty
    · simp only [hfrag, hqe, Bool.false_eq_true, if_false]
      have hout : '#' ∉ urlunparsePrefixCs p ++ '?' :: p.query.data := by
        intro hmem
        simp only [List.mem_append, List.mem_cons] at hmem
        rcases hmem with h | h | h
        · exact hpre1 h
        · cases h
        · exact hq h
      rw [splitAtFirstChar_append '#' _ _ hout]
      rw [splitAtFirstChar_append '?' _ _ hpre2]
      rfl
    · simp only [hfrag, hqe, Bool.false_eq_true, if_false, if_true]
      rw [splitAtFirstChar_append '#' _ _ hpre1]
      rw [splitAtFirstChar_of_not_mem '?' _ hpre2]
      have hqd : p.query.data = [] := by
        rw [← List.isEmpty_iff]
        exact hqe
      show (⟨[]⟩ : String) = p.query
      rw [← hqd]
  · cases hqe : p.query.data.isEmpty
    · simp only [hfrag, hqe, Bool.false_eq_true, if_false, if_true]
      have hout : '#' ∉ urlunparsePrefixCs p ++ '?' :: p.query.data := by
        intro hmem
        simp only [List.mem_append, List.mem_cons] at hmem
        rcases hmem with h | h | h
        · exact hpre1 h
        · cases h
        · exact hq h
      rw [splitAtFirstChar_of_not_mem '#' _ hout]
      rw [splitAtFirstChar_append '?' _ _ hpre2]
      rfl
    · simp only [hfrag, hqe, if_true]
      rw [splitAtFirstChar_of_not_mem '#' _ hpre1]
      rw [splitAtFirstChar_of_not_mem '?' _ hpre2]
      have hqd : p.query.data = [] := by
        rw [← List.isEmpty_iff]
        exact hqe
      show (⟨[]⟩ : String) = p.query
      rw [← hqd]

/-- C7 (amended): when the original URL query parses to pairs with pairwise
distinct keys (and round-trip-safe characters), the normalised URL query
parses to exactly those pairs followed by the missing defaults among
`auto=format`, `q=80`, `w=1200` — every existing parameter is preserved and a
default is injected only when its key is absent.  (When a key occurs twice
the dict comprehension keeps only the last value, see the counterexample.) -/
theorem claim7_param_preservation_amended (u : String)
    (hgood : ∀ kv ∈ parse_qsl (urlparse u).query, QslPairOk kv)
    (hkeys : ((parse_qsl (urlparse u).query).map Prod.fst).Nodup) :
    parse_qsl (urlparse (optimizeUrl u)).query =
      parse_qsl (urlparse u).query ++
        defaultParams.filter
          (fun kv => kv.1 ∉ (parse_qsl (urlparse u).query).map Prod.fst) := by
  have hd0 : dictOfPairs (parse_qsl (urlparse u).query) = parse_qsl (urlparse u).query :=
    dictOfPairs_eq_self _ hkeys
  have hd3 : setDefaultParam (setDefaultParam (setDefaultParam
      (dictOfPairs (parse_qsl (urlparse u).query)) "auto" "format") "q" "80") "w" "1200" =
      parse_qsl (urlparse u).query ++
        defaultParams.filter
          (fun kv => kv.1 ∉ (parse_qsl (urlparse u).query).map Prod.fst) := by
    rw [hd0]
    exact setDefaults_append _
  have hgood3 : ∀ kv ∈ parse_qsl (urlparse u).query ++
      defaultParams.filter
        (fun kv => kv.1 ∉ (parse_qsl (urlparse u).query).map Prod.fst), QslPairOk kv := by
    intro kv hkv
    rcases List.mem_append.mp hkv with h | h
    · exact hgood kv h
    · have hm : kv ∈ defaultParams := List.mem_of_mem_filter h
      have hall : ∀ kv ∈ defaultParams, QslPairOk kv := by decide
      exact hall kv hm
  have hc1 := urlparse_prefix_clean u '#' (by decide) (by decide) (hash_not_mem_beforeQ u)
  have hc2 := urlparse_prefix_clean u '?' (by decide) (by decide) (qmark_not_mem_beforeQ u)
  unfold optimizeUrl
  rw [hd3]
  have hquery : '#' ∉ (urlencode (parse_qsl (urlparse u).query ++
      defaultParams.filter
        (fun kv => kv.1 ∉ (parse_qsl (urlparse u).query).map Prod.fst))).data := by
    apply hash_not_mem_urlencodeCs
    intro p hp
    rcases List.mem_map.mp hp with ⟨r, hr, hre⟩
    have hrr := hgood3 r hr
    rw [← hre]
    exact ⟨hrr.1.2.2, hrr.2.2⟩
  have hext := urlparse_query_of_unparse
    { urlparse u with
      query := urlencode (parse_qsl (urlparse u).query ++
        defaultParams.filter
          (fun kv => kv.1 ∉ (parse_qsl (urlparse u).query).map Prod.fst)) }
    (unparse_prefix_clean _ '#' hc1.1 hc1.2.1 hc1.2.2.1 hc1.2.2.2
      (by decide) (by decide) (by decide))
    (unparse_prefix_clean _ '?' hc2.1 hc2.2.1 hc2.2.2.1 hc2.2.2.2
      (by decide) (by decide) (by decide))
    hquery
  rw [hext]
  exact parse_qsl_urlencode _ hgood3

/-- Witness for C7 (amended) at a URL with one existing parameter. -/
theorem claim7_param_preservation_amended_witness :
    parse_qsl (urlparse (optimizeUrl "https://images.example/a?x=1")).query =
      parse_qsl (urlparse "https://images.example/a?x=1").query ++
        defaultParams.filter
          (fun kv =>
            kv.1 ∉ (parse_qsl (urlparse "https://images.example/a?x=1").query).map Prod.fst) :=
  claim7_param_preservation_amended "https://images.example/a?x=1" (by decide) (by decide)

/-- C7 (counterexample): when a parameter key occurs twice, the first pair is
dropped by the normalisation — the claim that every parameter present in the
original URL is preserved is false as stated. -/
theorem claim7_param_preservation_cex :
    ("a", "1") ∈ parse_qsl (urlparse "https://x.example/p?a=1&a=2").query ∧
    ("a", "1") ∉ parse_qsl (urlparse (optimizeUrl "https://x.example/p?a=1&a=2")).query := by
  constructor
  · decide
  · decide

end WanderWallet
